import Mathlib

/-
Verification of the Hierarch qualification and grace-period decision engine.

The definitions below are a shallow embedding of the two scripts of the
repository:
  * src/unnamed/part_000  (categorizeMembers, determineQualified, manageRoles)
  * src/role-manager.js   (filterEligibleUsers, getActiveSpecialRoles, manageRoles)
External collaborators (message scanning, the member directory, the role
mutator, reporting) are modeled as pure inputs: a run receives the mention
map as a list of (userId, count) pairs (the iteration order of the JS Map,
whose keys are unique) and the guild as a list of members carrying the
role facts the engine reads.  Role mutation is modeled by applyDecisions.
-/

namespace RoleManage

/-- Member of the guild as seen by the engine: the directory facts the code
reads.  The username field stands for (member.nickname || member.user.username),
isMember for possession of MEMBER_ROLE_ID, isProtected for intersecting
PROTECTED_ROLES_IDS, isSpecial for intersecting SPECIAL_ROLES_IDS, and
hasHierarch for member.roles.cache.has(HIERARCH_ROLE_ID). -/
structure Member where
  userId : Nat
  username : String
  isMember : Bool
  isProtected : Bool
  isSpecial : Bool
  hasHierarch : Bool
deriving DecidableEq, Repr

/-- The userData objects built by categorizeMembers and filterEligibleUsers:
userId, resolved username, the mention count of the window, and the fetched
member object. -/
structure UserData where
  userId : Nat
  username : String
  mentionCount : Nat
  member : Member
deriving DecidableEq, Repr

/-- One record of grace-tracking.json: { username, weeksOut, firstWeekOut }. -/
structure GraceRec where
  username : String
  weeksOut : Nat
  firstWeekOut : String
deriving DecidableEq, Repr

/-- The grace store: the JS object keyed by userId, as an association list
with unique keys. -/
abbrev GraceStore := List (Nat × GraceRec)

/-- Lookup of graceTracking[id]. -/
def glookup (id : Nat) : GraceStore → Option GraceRec
  | [] => none
  | (k, r) :: s => if k = id then some r else glookup id s

/-- Deletion, delete graceTracking[id]: remove the entry of that key (the
keys of the store are unique, so removing every occurrence is the same). -/
def gerase (id : Nat) : GraceStore → GraceStore
  | [] => []
  | p :: s => if p.1 = id then gerase id s else p :: gerase id s

/-- Assignment, graceTracking[id] = r.  Key order is never observed by the
engine, so erase-then-append is an adequate model of the JS object update. -/
def gset (id : Nat) (r : GraceRec) (s : GraceStore) : GraceStore :=
  gerase id s ++ [(id, r)]

/-- Entry of logData.rolesAdded. -/
structure AddedEntry where
  username : String
  userId : Nat
  mentions : Nat
deriving DecidableEq, Repr

/-- Entry of logData.rolesRemoved.  weeksOut is present only for the
grace-expired removals, as in the JS object. -/
structure RemovedEntry where
  username : String
  userId : Nat
  reason : String
  weeksOut : Option Nat
deriving DecidableEq, Repr

/-- Entry of logData.graceUsers. -/
structure GraceEntry where
  username : String
  userId : Nat
  weeksOut : Nat
  weeksRemaining : Nat
deriving DecidableEq, Repr

/-- Entry of logData.protectedSkipped (present in src/role-manager.js). -/
structure SkippedEntry where
  username : String
  userId : Nat
deriving DecidableEq, Repr

/-- Result of determineQualified in src/unnamed/part_000. -/
structure Qualified where
  top30Regular : List UserData
  qualifiedSpecial : List UserData
  qualifiedProtected : List UserData
  threshold : Nat
deriving DecidableEq, Repr

/-- The decision-relevant part of logData produced by one manageRoles run,
together with the grace store the run persists. -/
structure RunOut where
  rolesAdded : List AddedEntry
  rolesRemoved : List RemovedEntry
  graceUsers : List GraceEntry
  protectedSkipped : List SkippedEntry
  graceTracking : GraceStore
deriving DecidableEq, Repr

/-- TOP_COUNT = 30 in both scripts. -/
def TOP_COUNT : Nat := 30

/-- GRACE_PERIOD_WEEKS = 2 in src/unnamed/part_000. -/
def GRACE_PERIOD_WEEKS : Nat := 2

/-- GRACE_PERIOD_WEEKS = 4 in src/role-manager.js. -/
def RM_GRACE_PERIOD_WEEKS : Nat := 4

/-- Comparator of the two sort calls, (a, b) => b.mentionCount - a.mentionCount:
descending order of mention count. -/
def byMentionsDesc (a b : UserData) : Prop :=
  b.mentionCount ≤ a.mentionCount

instance : DecidableRel byMentionsDesc :=
  fun a b => Nat.decLe b.mentionCount a.mentionCount

instance : IsTotal UserData byMentionsDesc :=
  ⟨fun a b => Nat.le_total b.mentionCount a.mentionCount⟩

instance : IsTrans UserData byMentionsDesc :=
  ⟨fun _ _ _ h1 h2 => Nat.le_trans h2 h1⟩

/-- Stable descending sort by mention count, modeling Array.prototype.sort
with the comparator above (timsort is stable, as is insertion sort). -/
def sortDesc (l : List UserData) : List UserData :=
  List.insertionSort byMentionsDesc l

/-- The userData object built for one mention entry from the fetched member. -/
def mkUserData (e : Nat × Nat) (m : Member) : UserData :=
  ⟨e.1, m.username, e.2, m⟩

/-- categorizeMembers of src/unnamed/part_000: walk the mention map, fetch
each member (a failed fetch skips the user), require the Member role, then
classify with precedence Protected over Special over Regular; finally sort
the regular and special lists by mention count descending. -/
def categorizeMembers (guild : List Member) (mentions : List (Nat × Nat)) :
    List UserData × List UserData × List UserData :=
  let r := mentions.foldl
    (fun (acc : List UserData × List UserData × List UserData) e =>
      match guild.find? (fun m => m.userId == e.1) with
      | none => acc
      | some m =>
        if m.isMember = false then acc
        else if m.isProtected then (acc.1, acc.2.1, acc.2.2 ++ [mkUserData e m])
        else if m.isSpecial then (acc.1, acc.2.1 ++ [mkUserData e m], acc.2.2)
        else (acc.1 ++ [mkUserData e m], acc.2.1, acc.2.2))
    ([], [], [])
  (sortDesc r.1, sortDesc r.2.1, r.2.2)

/-- determineQualified of src/unnamed/part_000: top 30 regular members
always qualify; the threshold is the mention count of the last of them
(0 when there are none); special members qualify strictly above the
threshold; protected members present in the evidence always qualify. -/
def determineQualified (regularMembers specialMembers protectedMembers : List UserData) :
    Qualified :=
  let top30Regular := regularMembers.take TOP_COUNT
  let threshold := ((top30Regular.getLast?).map (fun u => u.mentionCount)).getD 0
  { top30Regular := top30Regular
    qualifiedSpecial := specialMembers.filter (fun m => decide (threshold < m.mentionCount))
    qualifiedProtected := protectedMembers
    threshold := threshold }

/-- The added entry pushed onto logData.rolesAdded for one qualified user. -/
def mkAdded (u : UserData) : AddedEntry :=
  ⟨u.username, u.userId, u.mentionCount⟩

/-- One iteration of the add loop of both manageRoles functions: delete the
grace record of the user when one exists, then grant the role and push an
added entry when the member does not already hold it.  The role grant also
marks the member cache; since the mention-map keys are unique, no user is
visited twice, so the cache mutation is unobservable within the loop. -/
def astep (st : GraceStore × List AddedEntry) (u : UserData) :
    GraceStore × List AddedEntry :=
  let grace := gerase u.userId st.1
  if u.member.hasHierarch then (grace, st.2)
  else (grace, st.2 ++ [mkAdded u])

/-- State threaded through the removal loop of both manageRoles functions. -/
structure BState where
  grace : GraceStore
  removed : List RemovedEntry
  graceUsers : List GraceEntry
  skipped : List SkippedEntry
deriving DecidableEq, Repr

/-- One iteration of the removal loop over the holders of the Hierarch role.
Fetching the member always succeeds here because the holders are drawn from
the guild list itself.  logSkip distinguishes the two scripts: role-manager.js
pushes a protectedSkipped entry where part_000 only logs and continues.
reason0 is the removal reason of the no-grace branch (src/unnamed/part_000
uses "Not qualified", src/role-manager.js uses "Not in top 30"). -/
def bstep (g : Nat) (ts : String) (logSkip : Bool) (reason0 : String)
    (activeIds : List Nat) (st : BState) (m : Member) : BState :=
  if activeIds.contains m.userId then st
  else if m.isProtected then
    (if logSkip then
      { st with skipped := st.skipped ++ [⟨m.username, m.userId⟩] }
    else st)
  else if 0 < g then
    match glookup m.userId st.grace with
    | none =>
      { st with
        grace := gset m.userId ⟨m.username, 1, ts⟩ st.grace
        graceUsers := st.graceUsers ++ [⟨m.username, m.userId, 1, g - 1⟩] }
    | some r =>
      let w := r.weeksOut + 1
      if g < w then
        { st with
          removed := st.removed ++ [⟨m.username, m.userId, "Grace period expired", some w⟩]
          grace := gerase m.userId st.grace }
      else
        { st with
          grace := gset m.userId { r with weeksOut := w } st.grace
          graceUsers := st.graceUsers ++ [⟨m.username, m.userId, w, g - w⟩] }
  else
    { st with removed := st.removed ++ [⟨m.username, m.userId, reason0, none⟩] }

/-- Common decision body of the two manageRoles functions, after the
Hierarch role object has been fetched successfully.
addList is the list whose members get the role and have grace cleared
(part_000: the whole qualified union; role-manager.js: top30Regular only);
clearOnly additionally has grace cleared without role grants
(role-manager.js: activeSpecialRoles; part_000: empty).  The id set guarding
the removal loop is built from both lists, exactly as the JS Set is.
The removal loop runs over the guild members holding the role; members the
add loop just granted the role to are all in activeIds and would be skipped
anyway, so reading the holder set from the pre-run guild is faithful. -/
def manageRolesCore (g : Nat) (ts : String) (logSkip : Bool) (reason0 : String)
    (guild : List Member) (addList clearOnly : List UserData)
    (grace0 : GraceStore) : RunOut :=
  let activeIds := (addList ++ clearOnly).map (fun u => u.userId)
  let a := addList.foldl astep (grace0, [])
  let s1 := clearOnly.foldl (fun s u => gerase u.userId s) a.1
  let holders := guild.filter (fun m => m.hasHierarch)
  let b := holders.foldl (bstep g ts logSkip reason0 activeIds)
    { grace := s1, removed := [], graceUsers := [], skipped := [] }
  { rolesAdded := a.2
    rolesRemoved := b.removed
    graceUsers := b.graceUsers
    protectedSkipped := b.skipped
    graceTracking := b.grace }

/-- manageRoles of src/unnamed/part_000: when the Hierarch role cannot be
fetched the function logs an error and returns before the add loop, the
removal loop and the grace-file write, so no decision is produced and no
state is mutated; otherwise it processes the qualified union. -/
def manageRoles (g : Nat) (ts : String) (guild : List Member)
    (hierarchExists : Bool) (q : Qualified) (grace0 : GraceStore) :
    Option RunOut :=
  if hierarchExists then
    some (manageRolesCore g ts false "Not qualified" guild
      (q.top30Regular ++ q.qualifiedSpecial ++ q.qualifiedProtected) [] grace0)
  else none

/-- filterEligibleUsers of src/role-manager.js: mentioned users with the
Member role and neither special nor protected roles, sorted by mention
count descending. -/
def filterEligibleUsers (guild : List Member) (mentions : List (Nat × Nat)) :
    List UserData :=
  sortDesc (mentions.foldl
    (fun acc e =>
      match guild.find? (fun m => m.userId == e.1) with
      | none => acc
      | some m =>
        if m.isMember = false then acc
        else if m.isSpecial || m.isProtected then acc
        else acc ++ [mkUserData e m])
    [])

/-- getActiveSpecialRoles of src/role-manager.js: mentioned users holding a
special role (the Member role is not required here, and protected roles are
not excluded, exactly as in the source). -/
def getActiveSpecialRoles (guild : List Member) (mentions : List (Nat × Nat)) :
    List UserData :=
  mentions.foldl
    (fun acc e =>
      match guild.find? (fun m => m.userId == e.1) with
      | none => acc
      | some m => if m.isSpecial then acc ++ [mkUserData e m] else acc)
    []

/-- manageRoles of src/role-manager.js: grants go to top30Regular only,
active special users merely have grace cleared, and protected holders are
recorded in protectedSkipped. -/
def manageRolesRM (g : Nat) (ts : String) (guild : List Member)
    (hierarchExists : Bool) (top30Regular activeSpecialRoles : List UserData)
    (grace0 : GraceStore) : Option RunOut :=
  if hierarchExists then
    some (manageRolesCore g ts true "Not in top 30" guild
      top30Regular activeSpecialRoles grace0)
  else none

/-- Full qualification pipeline of src/unnamed/part_000 for one run. -/
def qualifiedOf (guild : List Member) (mentions : List (Nat × Nat)) : Qualified :=
  let c := categorizeMembers guild mentions
  determineQualified c.1 c.2.1 c.2.2

/-- The qualified union the decision composer works with. -/
def qualUnion (q : Qualified) : List UserData :=
  q.top30Regular ++ q.qualifiedSpecial ++ q.qualifiedProtected

/-- Effect of the role mutator applying the decisions of one run: the role
is granted to the users of the added list and revoked from those of the
removed list; everything else about a member is untouched. -/
def applyDecisions (guild : List Member) (o : RunOut) : List Member :=
  guild.map (fun m =>
    if o.rolesAdded.any (fun e => e.userId == m.userId) then
      { m with hasHierarch := true }
    else if o.rolesRemoved.any (fun e => e.userId == m.userId) then
      { m with hasHierarch := false }
    else m)

/-- One complete decision run of src/unnamed/part_000 with the Hierarch
role present in the directory. -/
def runOnce (g : Nat) (ts : String) (guild : List Member)
    (mentions : List (Nat × Nat)) (grace0 : GraceStore) : RunOut :=
  manageRolesCore g ts false "Not qualified" guild
    (qualUnion (qualifiedOf guild mentions)) [] grace0

/-- A sequence of runs: each run consumes one (timestamp, mention map)
input, its decisions are applied to the guild, and the persisted grace
store feeds the next run.  Returns the decision record of every run, the
final guild and the final store. -/
def runSeq (g : Nat) : List (String × List (Nat × Nat)) → List Member →
    GraceStore → List RunOut × List Member × GraceStore
  | [], guild, s => ([], guild, s)
  | (ts, ms) :: rest, guild, s =>
    let o := runOnce g ts guild ms s
    let r := runSeq g rest (applyDecisions guild o) o.graceTracking
    (o :: r.1, r.2.1, r.2.2)

/-- Outcome of the ready handler of src/unnamed/part_000 around one run:
whether the process reports success (logs the success line and exits 0)
and the decision record, if any.  A missing Hierarch role makes manageRoles
return early without throwing; sendSummaryToDiscord then fails on the
undefined log data, but its own try/catch swallows that error, so the
handler still reaches the success log in both branches. -/
def readyRun (g : Nat) (ts : String) (guild : List Member)
    (mentions : List (Nat × Nat)) (grace0 : GraceStore)
    (hierarchExists : Bool) : Bool × Option RunOut :=
  match manageRoles g ts guild hierarchExists (qualifiedOf guild mentions) grace0 with
  | none => (true, none)
  | some o => (true, some o)

/-- Removed entries of a given user. -/
def entriesR (id : Nat) (l : List RemovedEntry) : List RemovedEntry :=
  l.filter (fun e => e.userId == id)

/-- Grace entries of a given user. -/
def entriesG (id : Nat) (l : List GraceEntry) : List GraceEntry :=
  l.filter (fun e => e.userId == id)

/-- Skipped entries of a given user. -/
def entriesS (id : Nat) (l : List SkippedEntry) : List SkippedEntry :=
  l.filter (fun e => e.userId == id)

/-- Added entries of a given user. -/
def entriesA (id : Nat) (l : List AddedEntry) : List AddedEntry :=
  l.filter (fun e => e.userId == id)

/-- Well-formedness of a persisted grace store for grace period g: every
record has weeksOut between 1 and g inclusive. -/
def StoreOk (g : Nat) (s : GraceStore) : Prop :=
  ∀ p ∈ s, 1 ≤ p.2.weeksOut ∧ p.2.weeksOut ≤ g

theorem glookup_gerase (u v : Nat) (s : GraceStore) :
    glookup u (gerase v s) = if v = u then none else glookup u s := by
  induction s with
  | nil => simp [gerase, glookup]
  | cons p t ih =>
    obtain ⟨k, r⟩ := p
    by_cases hkv : k = v
    · subst hkv
      by_cases hku : k = u
      · subst hku
        simpa [gerase, glookup] using ih
      · simpa [gerase, glookup, hku] using ih
    · by_cases hku : k = u
      · have hvu : ¬v = u := fun h => hkv (hku.trans h.symm)
        have huv : ¬u = v := fun h => hvu h.symm
        simp [gerase, glookup, hkv, hku, hvu, huv]
      · simpa [gerase, glookup, hkv, hku] using ih

theorem glookup_gerase_self (u : Nat) (s : GraceStore) :
    glookup u (gerase u s) = none := by
  simp [glookup_gerase]

theorem glookup_gerase_ne {u v : Nat} (h : v ≠ u) (s : GraceStore) :
    glookup u (gerase v s) = glookup u s := by
  simp [glookup_gerase, h]

theorem glookup_append (u : Nat) (s t : GraceStore) :
    glookup u (s ++ t) =
      match glookup u s with
      | some r => some r
      | none => glookup u t := by
  induction s with
  | nil => simp [glookup]
  | cons p s ih =>
    obtain ⟨k, r⟩ := p
    by_cases hk : k = u
    · simp [glookup, hk]
    · simp [glookup, hk, ih]

theorem glookup_gset (u v : Nat) (r : GraceRec) (s : GraceStore) :
    glookup u (gset v r s) = if v = u then some r else glookup u s := by
  unfold gset
  rw [glookup_append]
  by_cases hvu : v = u
  · simp [glookup_gerase, hvu, glookup]
  · simp [glookup_gerase, hvu, glookup]
    cases glookup u s <;> simp

theorem glookup_gset_self (u : Nat) (r : GraceRec) (s : GraceStore) :
    glookup u (gset u r s) = some r := by
  simp [glookup_gset]

theorem glookup_gset_ne {u v : Nat} (h : v ≠ u) (r : GraceRec) (s : GraceStore) :
    glookup u (gset v r s) = glookup u s := by
  simp [glookup_gset, h]

theorem mem_gerase {p : Nat × GraceRec} {v : Nat} {s : GraceStore}
    (hp : p ∈ gerase v s) : p ∈ s := by
  induction s with
  | nil => simp [gerase] at hp
  | cons q t ih =>
    by_cases hq : q.1 = v
    · simp only [gerase, if_pos hq] at hp
      exact List.mem_cons_of_mem q (ih hp)
    · simp only [gerase, if_neg hq, List.mem_cons] at hp
      rcases hp with rfl | hp
      · exact List.mem_cons_self p t
      · exact List.mem_cons_of_mem q (ih hp)

theorem storeOk_gerase {g : Nat} {s : GraceStore} (h : StoreOk g s) (v : Nat) :
    StoreOk g (gerase v s) := by
  intro p hp
  exact h p (mem_gerase hp)

theorem storeOk_gset {g : Nat} {s : GraceStore} (h : StoreOk g s) (v : Nat)
    {r : GraceRec} (h1 : 1 ≤ r.weeksOut) (h2 : r.weeksOut ≤ g) :
    StoreOk g (gset v r s) := by
  intro p hp
  rcases List.mem_append.mp hp with hp | hp
  · exact storeOk_gerase h v p hp
  · rcases List.mem_singleton.mp hp with rfl
    exact ⟨h1, h2⟩

/-- The add loop appends exactly the qualified users who lack the role,
independently of the grace store it threads. -/
theorem afold_adds (L : List UserData) (s : GraceStore) (adds : List AddedEntry) :
    (L.foldl astep (s, adds)).2 =
      adds ++ (L.filter (fun u => !u.member.hasHierarch)).map mkAdded := by
  induction L generalizing s adds with
  | nil => simp
  | cons u L ih =>
    by_cases hu : u.member.hasHierarch
    · simp [astep, hu, ih]
    · simp [astep, hu, ih]

/-- The grace store produced by one add-loop step: the record of the
visited user is erased regardless of role possession. -/
theorem astep_fst (st : GraceStore × List AddedEntry) (u : UserData) :
    (astep st u).1 = gerase u.userId st.1 := by
  unfold astep
  by_cases hh : u.member.hasHierarch <;> simp [hh]

/-- The add loop touches the grace store only at the keys of its list. -/
theorem afold_glookup_ne {id : Nat} :
    ∀ (L : List UserData) (s : GraceStore) (adds : List AddedEntry),
    id ∉ L.map (fun u => u.userId) →
    glookup id (L.foldl astep (s, adds)).1 = glookup id s := by
  intro L
  induction L with
  | nil => intro s adds _; rfl
  | cons u L ih =>
    intro s adds h
    simp only [List.map_cons, List.mem_cons] at h
    push_neg at h
    rw [List.foldl_cons,
      show astep (s, adds) u = ((astep (s, adds) u).1, (astep (s, adds) u).2) from rfl,
      ih _ _ h.2, astep_fst, glookup_gerase_ne (fun he => h.1 he.symm)]

/-- Once the grace store holds no record for a user, the add loop keeps it
that way (it only erases records). -/
theorem afold_glookup_none {id : Nat} :
    ∀ (L : List UserData) (s : GraceStore) (adds : List AddedEntry),
    glookup id s = none →
    glookup id (L.foldl astep (s, adds)).1 = none := by
  intro L
  induction L with
  | nil => intro s adds h; exact h
  | cons u L ih =>
    intro s adds h
    rw [List.foldl_cons,
      show astep (s, adds) u = ((astep (s, adds) u).1, (astep (s, adds) u).2) from rfl]
    refine ih _ _ ?_
    rw [astep_fst, glookup_gerase]
    split
    · rfl
    · exact h

/-- The add loop erases the grace record of every user of its list. -/
theorem afold_glookup_mem {id : Nat} :
    ∀ (L : List UserData) (s : GraceStore) (adds : List AddedEntry),
    id ∈ L.map (fun u => u.userId) →
    glookup id (L.foldl astep (s, adds)).1 = none := by
  intro L
  induction L with
  | nil => intro s adds h; simp at h
  | cons u L ih =>
    intro s adds h
    rw [List.foldl_cons,
      show astep (s, adds) u = ((astep (s, adds) u).1, (astep (s, adds) u).2) from rfl]
    simp only [List.map_cons, List.mem_cons] at h
    by_cases hu : id = u.userId
    · refine afold_glookup_none _ _ _ ?_
      rw [astep_fst, hu, glookup_gerase_self]
    · exact ih _ _ (h.resolve_left hu)

/-- The grace-clear loop over the active special users touches only its
own keys. -/
theorem cfold_glookup_ne {id : Nat} :
    ∀ (L : List UserData) (s : GraceStore),
    id ∉ L.map (fun u => u.userId) →
    glookup id (L.foldl (fun s2 u => gerase u.userId s2) s) = glookup id s := by
  intro L
  induction L with
  | nil => intro s _; rfl
  | cons u L ih =>
    intro s h
    simp only [List.map_cons, List.mem_cons] at h
    push_neg at h
    rw [List.foldl_cons, ih _ h.2, glookup_gerase_ne (fun he => h.1 he.symm)]

/-- The grace-clear loop cannot resurrect an absent record. -/
theorem cfold_glookup_none {id : Nat} :
    ∀ (L : List UserData) (s : GraceStore),
    glookup id s = none →
    glookup id (L.foldl (fun s2 u => gerase u.userId s2) s) = none := by
  intro L
  induction L with
  | nil => intro s h; exact h
  | cons u L ih =>
    intro s h
    rw [List.foldl_cons]
    refine ih _ ?_
    rw [glookup_gerase]
    split
    · rfl
    · exact h

theorem entriesR_append_ne {id : Nat} (l : List RemovedEntry) (e : RemovedEntry)
    (h : ¬e.userId = id) : entriesR id (l ++ [e]) = entriesR id l := by
  simp [entriesR, List.filter_append, h]

theorem entriesR_append_self (id : Nat) (l : List RemovedEntry) (e : RemovedEntry)
    (h : e.userId = id) : entriesR id (l ++ [e]) = entriesR id l ++ [e] := by
  simp [entriesR, List.filter_append, h]

theorem entriesG_append_ne {id : Nat} (l : List GraceEntry) (e : GraceEntry)
    (h : ¬e.userId = id) : entriesG id (l ++ [e]) = entriesG id l := by
  simp [entriesG, List.filter_append, h]

theorem entriesG_append_self (id : Nat) (l : List GraceEntry) (e : GraceEntry)
    (h : e.userId = id) : entriesG id (l ++ [e]) = entriesG id l ++ [e] := by
  simp [entriesG, List.filter_append, h]

theorem entriesS_append_ne {id : Nat} (l : List SkippedEntry) (e : SkippedEntry)
    (h : ¬e.userId = id) : entriesS id (l ++ [e]) = entriesS id l := by
  simp [entriesS, List.filter_append, h]

/-- One removal-loop step for a member whose id is in the active set: the
loop body is skipped entirely. -/
theorem bstep_active {g : Nat} {ts : String} {ls : Bool} {r0 : String}
    {act : List Nat} {st : BState} {m : Member}
    (h : m.userId ∈ act) :
    bstep g ts ls r0 act st m = st := by
  simp [bstep, h]

/-- One removal-loop step for a protected member: nothing but possibly a
protectedSkipped entry is produced, and the grace store is untouched. -/
theorem bstep_protected (g : Nat) (ts : String) (ls : Bool) (r0 : String)
    (act : List Nat) (st : BState) {m : Member}
    (h : m.isProtected = true) :
    (bstep g ts ls r0 act st m).grace = st.grace ∧
    (bstep g ts ls r0 act st m).removed = st.removed ∧
    (bstep g ts ls r0 act st m).graceUsers = st.graceUsers := by
  by_cases ha : m.userId ∈ act
  · simp [bstep_active ha]
  · cases ls <;> simp [bstep, ha, h]

/-- The part_000 removal-loop step for a disqualified protected holder:
it only logs and continues. -/
theorem bstep_protected_noskip {g : Nat} {ts : String} {r0 : String}
    {act : List Nat} {st : BState} {m : Member}
    (ha : m.userId ∉ act) (hp : m.isProtected = true) :
    bstep g ts false r0 act st m = st := by
  simp [bstep, ha, hp]

/-- The role-manager.js removal-loop step for a disqualified protected
holder: a protectedSkipped entry is pushed. -/
theorem bstep_protected_skip {g : Nat} {ts : String} {r0 : String}
    {act : List Nat} {st : BState} {m : Member}
    (ha : m.userId ∉ act) (hp : m.isProtected = true) :
    bstep g ts true r0 act st m =
      { st with skipped := st.skipped ++ [⟨m.username, m.userId⟩] } := by
  simp [bstep, ha, hp]

/-- One removal-loop step creating a grace record: first disqualified run
of an unprotected role holder. -/
theorem bstep_create {g : Nat} (ts : String) (ls : Bool) (r0 : String)
    {act : List Nat} {st : BState} {m : Member}
    (ha : m.userId ∉ act) (hp : m.isProtected = false)
    (hg : 0 < g) (hn : glookup m.userId st.grace = none) :
    bstep g ts ls r0 act st m =
      { st with
        grace := gset m.userId ⟨m.username, 1, ts⟩ st.grace
        graceUsers := st.graceUsers ++ [⟨m.username, m.userId, 1, g - 1⟩] } := by
  simp [bstep, ha, hp, hg, hn]

/-- One removal-loop step advancing a grace record that stays within the
grace period. -/
theorem bstep_cont {g : Nat} (ts : String) (ls : Bool) (r0 : String)
    {act : List Nat} {st : BState} {m : Member} {r : GraceRec}
    (ha : m.userId ∉ act) (hp : m.isProtected = false)
    (hg : 0 < g) (hs : glookup m.userId st.grace = some r)
    (hle : ¬g < r.weeksOut + 1) :
    bstep g ts ls r0 act st m =
      { st with
        grace := gset m.userId { r with weeksOut := r.weeksOut + 1 } st.grace
        graceUsers := st.graceUsers ++
          [⟨m.username, m.userId, r.weeksOut + 1, g - (r.weeksOut + 1)⟩] } := by
  simp [bstep, ha, hp, hg, hs, hle]

/-- One removal-loop step expiring a grace record: the incremented counter
exceeds the grace period, a removal is emitted and the record deleted. -/
theorem bstep_exp {g : Nat} (ts : String) (ls : Bool) (r0 : String)
    {act : List Nat} {st : BState} {m : Member} {r : GraceRec}
    (ha : m.userId ∉ act) (hp : m.isProtected = false)
    (hg : 0 < g) (hs : glookup m.userId st.grace = some r)
    (hgt : g < r.weeksOut + 1) :
    bstep g ts ls r0 act st m =
      { st with
        removed := st.removed ++
          [⟨m.username, m.userId, "Grace period expired", some (r.weeksOut + 1)⟩]
        grace := gerase m.userId st.grace } := by
  simp [bstep, ha, hp, hg, hs, hgt]

/-- One removal-loop step with the grace period disabled: an immediate
removal decision with the configured reason. -/
theorem bstep_nograce (ts : String) (ls : Bool) (r0 : String)
    {act : List Nat} {st : BState} {m : Member}
    (ha : m.userId ∉ act) (hp : m.isProtected = false) :
    bstep 0 ts ls r0 act st m =
      { st with removed := st.removed ++ [⟨m.username, m.userId, r0, none⟩] } := by
  simp [bstep, ha, hp]

/-- One removal-loop step for a member of a different user: the grace store
and the per-user slices of every output list are untouched. -/
theorem bstep_frame (g : Nat) (ts : String) (ls : Bool) (r0 : String)
    (act : List Nat) (st : BState) {m : Member} {id : Nat}
    (h : ¬m.userId = id) :
    glookup id (bstep g ts ls r0 act st m).grace = glookup id st.grace ∧
    entriesR id (bstep g ts ls r0 act st m).removed = entriesR id st.removed ∧
    entriesG id (bstep g ts ls r0 act st m).graceUsers = entriesG id st.graceUsers ∧
    entriesS id (bstep g ts ls r0 act st m).skipped = entriesS id st.skipped := by
  by_cases ha : m.userId ∈ act
  · simp [bstep_active ha]
  · by_cases hp : m.isProtected = true
    · cases ls <;>
        simp [bstep, ha, hp, entriesR, entriesG, entriesS, List.filter_append, h]
    · rw [Bool.not_eq_true] at hp
      by_cases hg : 0 < g
      · cases hs : glookup m.userId st.grace with
        | none =>
          rw [bstep_create ts ls r0 ha hp hg hs]
          simp [glookup_gset_ne h, entriesR, entriesG, entriesS,
            List.filter_append, h]
        | some r =>
          by_cases hgt : g < r.weeksOut + 1
          · rw [bstep_exp ts ls r0 ha hp hg hs hgt]
            simp [glookup_gerase_ne h, entriesR, entriesG, entriesS,
              List.filter_append, h]
          · rw [bstep_cont ts ls r0 ha hp hg hs hgt]
            simp [glookup_gset_ne h, entriesR, entriesG, entriesS,
              List.filter_append, h]
      · simp [bstep, ha, hp, hg, entriesR, entriesG, entriesS,
          List.filter_append, h]

/-- One removal-loop step preserves well-formedness of the grace store:
records are created at weeksOut 1 and an incremented record is kept only
when it is still within the grace period. -/
theorem bstep_storeOk {g : Nat} {ts : String} {ls : Bool} {r0 : String}
    {act : List Nat} {st : BState} {m : Member}
    (h : StoreOk g st.grace) :
    StoreOk g (bstep g ts ls r0 act st m).grace := by
  by_cases ha : m.userId ∈ act
  · simpa [bstep_active ha] using h
  · by_cases hp : m.isProtected = true
    · exact (bstep_protected g ts ls r0 act st hp).1.symm ▸ h
    · rw [Bool.not_eq_true] at hp
      by_cases hg : 0 < g
      · cases hs : glookup m.userId st.grace with
        | none =>
          rw [bstep_create ts ls r0 ha hp hg hs]
          exact storeOk_gset h _ (le_refl 1) hg
        | some r =>
          by_cases hgt : g < r.weeksOut + 1
          · rw [bstep_exp ts ls r0 ha hp hg hs hgt]
            exact storeOk_gerase h _
          · rw [bstep_cont ts ls r0 ha hp hg hs hgt]
            exact storeOk_gset h _ (Nat.succ_le_succ (Nat.zero_le _))
              (Nat.le_of_not_lt hgt)
      · simpa [bstep, ha, hp, hg] using h

/-- The removal loop leaves the grace store and the per-user output slices
of a user untouched when that user is not among the processed members. -/
theorem bfold_frame (g : Nat) (ts : String) (ls : Bool) (r0 : String)
    (act : List Nat) {id : Nat} :
    ∀ (L : List Member) (st : BState), id ∉ L.map (fun m => m.userId) →
    glookup id (L.foldl (bstep g ts ls r0 act) st).grace = glookup id st.grace ∧
    entriesR id (L.foldl (bstep g ts ls r0 act) st).removed = entriesR id st.removed ∧
    entriesG id (L.foldl (bstep g ts ls r0 act) st).graceUsers = entriesG id st.graceUsers ∧
    entriesS id (L.foldl (bstep g ts ls r0 act) st).skipped = entriesS id st.skipped := by
  intro L
  induction L with
  | nil => intro st _; exact ⟨rfl, rfl, rfl, rfl⟩
  | cons m L ih =>
    intro st h
    simp only [List.map_cons, List.mem_cons] at h
    push_neg at h
    have hm : ¬m.userId = id := fun he => h.1 he.symm
    have hstep := bstep_frame g ts ls r0 act st hm
    have hrest := ih (bstep g ts ls r0 act st m) h.2
    rw [List.foldl_cons]
    exact ⟨hrest.1.trans hstep.1, hrest.2.1.trans hstep.2.1,
      hrest.2.2.1.trans hstep.2.2.1, hrest.2.2.2.trans hstep.2.2.2⟩

/-- Every output entry of the removal loop stems from one of the processed
members and carries that member. -/
theorem bstep_sources (g : Nat) (ts : String) (ls : Bool) (r0 : String)
    (act : List Nat) (st : BState) (m : Member) :
    (∀ e ∈ (bstep g ts ls r0 act st m).removed, e ∈ st.removed ∨ e.userId = m.userId) ∧
    (∀ e ∈ (bstep g ts ls r0 act st m).graceUsers, e ∈ st.graceUsers ∨ e.userId = m.userId) ∧
    (∀ e ∈ (bstep g ts ls r0 act st m).skipped, e ∈ st.skipped ∨ e.userId = m.userId) := by
  by_cases ha : m.userId ∈ act
  · rw [bstep_active ha]
    exact ⟨fun e he => Or.inl he, fun e he => Or.inl he, fun e he => Or.inl he⟩
  · by_cases hp : m.isProtected = true
    · cases ls
      · rw [bstep_protected_noskip ha hp]
        exact ⟨fun e he => Or.inl he, fun e he => Or.inl he, fun e he => Or.inl he⟩
      · rw [bstep_protected_skip ha hp]
        refine ⟨fun e he => Or.inl he, fun e he => Or.inl he, fun e he => ?_⟩
        rcases List.mem_append.mp he with he | he
        · exact Or.inl he
        · right; rw [List.mem_singleton.mp he]
    · rw [Bool.not_eq_true] at hp
      by_cases hg : 0 < g
      · cases hs : glookup m.userId st.grace with
        | none =>
          rw [bstep_create ts ls r0 ha hp hg hs]
          refine ⟨fun e he => Or.inl he, fun e he => ?_, fun e he => Or.inl he⟩
          rcases List.mem_append.mp he with he | he
          · exact Or.inl he
          · right; rw [List.mem_singleton.mp he]
        | some r =>
          by_cases hgt : g < r.weeksOut + 1
          · rw [bstep_exp ts ls r0 ha hp hg hs hgt]
            refine ⟨fun e he => ?_, fun e he => Or.inl he, fun e he => Or.inl he⟩
            rcases List.mem_append.mp he with he | he
            · exact Or.inl he
            · right; rw [List.mem_singleton.mp he]
          · rw [bstep_cont ts ls r0 ha hp hg hs hgt]
            refine ⟨fun e he => Or.inl he, fun e he => ?_, fun e he => Or.inl he⟩
            rcases List.mem_append.mp he with he | he
            · exact Or.inl he
            · right; rw [List.mem_singleton.mp he]
      · rw [Nat.not_lt, Nat.le_zero] at hg
        subst hg
        rw [bstep_nograce ts ls r0 ha hp]
        refine ⟨fun e he => ?_, fun e he => Or.inl he, fun e he => Or.inl he⟩
        rcases List.mem_append.mp he with he | he
        · exact Or.inl he
        · right; rw [List.mem_singleton.mp he]

/-- Source of removal-loop outputs over a whole member list. -/
theorem bfold_sources {g : Nat} {ts : String} {ls : Bool} {r0 : String}
    {act : List Nat} :
    ∀ (L : List Member) (st : BState),
    (∀ e ∈ (L.foldl (bstep g ts ls r0 act) st).removed,
      e ∈ st.removed ∨ e.userId ∈ L.map (fun m => m.userId)) ∧
    (∀ e ∈ (L.foldl (bstep g ts ls r0 act) st).graceUsers,
      e ∈ st.graceUsers ∨ e.userId ∈ L.map (fun m => m.userId)) ∧
    (∀ e ∈ (L.foldl (bstep g ts ls r0 act) st).skipped,
      e ∈ st.skipped ∨ e.userId ∈ L.map (fun m => m.userId)) := by
  intro L
  induction L with
  | nil =>
    intro st
    exact ⟨fun e he => Or.inl he, fun e he => Or.inl he, fun e he => Or.inl he⟩
  | cons m L ih =>
    intro st
    rw [List.foldl_cons]
    have hr := ih (bstep g ts ls r0 act st m)
    have hst := bstep_sources g ts ls r0 act st m
    refine ⟨fun e he => ?_, fun e he => ?_, fun e he => ?_⟩
    · rcases hr.1 e he with he2 | he2
      · rcases hst.1 e he2 with he3 | he3
        · exact Or.inl he3
        · right; simp [he3]
      · right; simp [he2]
    · rcases hr.2.1 e he with he2 | he2
      · rcases hst.2.1 e he2 with he3 | he3
        · exact Or.inl he3
        · right; simp [he3]
      · right; simp [he2]
    · rcases hr.2.2 e he with he2 | he2
      · rcases hst.2.2 e he2 with he3 | he3
        · exact Or.inl he3
        · right; simp [he3]
      · right; simp [he2]

/-- Number of removal, grace and skipped entries of one user in the
removal-loop state. -/
def countFor (id : Nat) (st : BState) : Nat :=
  (entriesR id st.removed).length + (entriesG id st.graceUsers).length +
    (entriesS id st.skipped).length

/-- One removal-loop step emits at most one entry overall, and only for the
member it processes. -/
theorem bstep_count (g : Nat) (ts : String) (ls : Bool) (r0 : String)
    (act : List Nat) (st : BState) (m : Member) (id : Nat) :
    countFor id (bstep g ts ls r0 act st m) ≤
      countFor id st + (if m.userId = id then 1 else 0) := by
  by_cases h : m.userId = id
  · rw [if_pos h]
    by_cases ha : m.userId ∈ act
    · rw [bstep_active ha]
      exact Nat.le_succ _
    · by_cases hp : m.isProtected = true
      · cases ls
        · rw [bstep_protected_noskip ha hp]
          exact Nat.le_succ _
        · rw [bstep_protected_skip ha hp]
          simp [countFor, entriesR, entriesG, entriesS, List.filter_append, h]
          omega
      · rw [Bool.not_eq_true] at hp
        by_cases hg : 0 < g
        · cases hs : glookup m.userId st.grace with
          | none =>
            rw [bstep_create ts ls r0 ha hp hg hs]
            simp [countFor, entriesR, entriesG, entriesS, List.filter_append, h]
            omega
          | some r =>
            by_cases hgt : g < r.weeksOut + 1
            · rw [bstep_exp ts ls r0 ha hp hg hs hgt]
              simp [countFor, entriesR, entriesG, entriesS, List.filter_append, h]
              omega
            · rw [bstep_cont ts ls r0 ha hp hg hs hgt]
              simp [countFor, entriesR, entriesG, entriesS, List.filter_append, h]
              omega
        · rw [Nat.not_lt, Nat.le_zero] at hg
          subst hg
          rw [bstep_nograce ts ls r0 ha hp]
          simp [countFor, entriesR, entriesG, entriesS, List.filter_append, h]
          omega
  · have hf := bstep_frame g ts ls r0 act st h
    have : countFor id (bstep g ts ls r0 act st m) = countFor id st := by
      unfold countFor
      rw [hf.2.1, hf.2.2.1, hf.2.2.2]
    omega

/-- Over a list of members with pairwise distinct ids, the removal loop
emits at most one entry for any given user. -/
theorem bfold_count (g : Nat) (ts : String) (ls : Bool) (r0 : String)
    (act : List Nat) (id : Nat) :
    ∀ (L : List Member) (st : BState), (L.map (fun m => m.userId)).Nodup →
    countFor id (L.foldl (bstep g ts ls r0 act) st) ≤
      countFor id st + (if id ∈ L.map (fun m => m.userId) then 1 else 0) := by
  intro L
  induction L with
  | nil => intro st _; simp
  | cons m L ih =>
    intro st hnd
    rw [List.map_cons, List.nodup_cons] at hnd
    rw [List.foldl_cons]
    have h1 := ih (bstep g ts ls r0 act st m) hnd.2
    have h2 := bstep_count g ts ls r0 act st m id
    by_cases hm : m.userId = id
    · have hid : id ∉ L.map (fun x => x.userId) := by
        rw [← hm]; exact hnd.1
      rw [if_neg hid] at h1
      rw [if_pos hm] at h2
      rw [List.map_cons, if_pos (by simp [hm])]
      omega
    · rw [if_neg hm] at h2
      by_cases hid : id ∈ L.map (fun x => x.userId)
      · rw [if_pos hid] at h1
        rw [List.map_cons, if_pos (List.mem_cons_of_mem _ hid)]
        omega
      · rw [if_neg hid] at h1
        have hout : id ∉ (m :: L).map (fun x => x.userId) := by
          rw [List.map_cons, List.mem_cons]
          push_neg
          exact ⟨fun he => hm he.symm, hid⟩
        rw [if_neg hout]
        omega

/-- When the given user is in the active set, the removal loop never
creates a grace record for that user. -/
theorem bfold_active_none {g : Nat} {ts : String} {ls : Bool} {r0 : String}
    {act : List Nat} {id : Nat} (ha : id ∈ act) :
    ∀ (L : List Member) (st : BState), glookup id st.grace = none →
    glookup id (L.foldl (bstep g ts ls r0 act) st).grace = none := by
  intro L
  induction L with
  | nil => intro st h; exact h
  | cons m L ih =>
    intro st h
    rw [List.foldl_cons]
    refine ih _ ?_
    by_cases hm : m.userId = id
    · rw [bstep_active (hm.symm ▸ ha)]
      exact h
    · rw [(bstep_frame g ts ls r0 act st hm).1]
      exact h

/-- When every processed member carrying the given id is either active or
protected, the removal loop leaves the grace record of that user untouched
and emits no removal or grace entry for them. -/
theorem bfold_protected_cond (g : Nat) (ts : String) (ls : Bool) (r0 : String)
    (act : List Nat) (id : Nat) :
    ∀ (L : List Member) (st : BState),
    (∀ m ∈ L, m.userId = id → m.userId ∈ act ∨ m.isProtected = true) →
    glookup id (L.foldl (bstep g ts ls r0 act) st).grace = glookup id st.grace ∧
    entriesR id (L.foldl (bstep g ts ls r0 act) st).removed = entriesR id st.removed ∧
    entriesG id (L.foldl (bstep g ts ls r0 act) st).graceUsers = entriesG id st.graceUsers := by
  intro L
  induction L with
  | nil => intro st _; exact ⟨rfl, rfl, rfl⟩
  | cons m L ih =>
    intro st hL
    rw [List.foldl_cons]
    have hrest := ih (bstep g ts ls r0 act st m)
      (fun m2 hm2 => hL m2 (List.mem_cons_of_mem m hm2))
    by_cases hm : m.userId = id
    · rcases hL m (List.mem_cons_self m L) hm with hac | hpr
      · refine ⟨hrest.1.trans ?_, hrest.2.1.trans ?_, hrest.2.2.trans ?_⟩ <;>
          rw [bstep_active hac]
      · have hp := bstep_protected g ts ls r0 act st hpr
        refine ⟨hrest.1.trans (by rw [hp.1]), hrest.2.1.trans (by rw [hp.2.1]),
          hrest.2.2.trans (by rw [hp.2.2])⟩
    · have hf := bstep_frame g ts ls r0 act st hm
      exact ⟨hrest.1.trans hf.1, hrest.2.1.trans hf.2.1, hrest.2.2.trans hf.2.2.1⟩

/-- The removal loop preserves well-formedness of the grace store. -/
theorem bfold_storeOk {g : Nat} {ts : String} {ls : Bool} {r0 : String}
    {act : List Nat} :
    ∀ (L : List Member) (st : BState), StoreOk g st.grace →
    StoreOk g (L.foldl (bstep g ts ls r0 act) st).grace := by
  intro L
  induction L with
  | nil => intro st h; exact h
  | cons m L ih =>
    intro st h
    rw [List.foldl_cons]
    exact ih _ (bstep_storeOk h)

/-- Splitting a removal-loop fold at one member of the list. -/
theorem bfold_decomp {g : Nat} {ts : String} {ls : Bool} {r0 : String}
    {act : List Nat} (L1 L2 : List Member) (u : Member) (st : BState) :
    (L1 ++ u :: L2).foldl (bstep g ts ls r0 act) st =
      L2.foldl (bstep g ts ls r0 act)
        (bstep g ts ls r0 act (L1.foldl (bstep g ts ls r0 act) st) u) := by
  rw [List.foldl_append, List.foldl_cons]

/-- Ids around a distinguished member in a list with pairwise distinct ids. -/
theorem notmem_ids_of_decomp {L1 L2 : List Member} {u : Member}
    (h : (((L1 ++ u :: L2).map (fun m => m.userId))).Nodup) :
    u.userId ∉ L1.map (fun m => m.userId) ∧
    u.userId ∉ L2.map (fun m => m.userId) := by
  rw [List.map_append, List.map_cons, List.nodup_append] at h
  obtain ⟨_, h2, hd⟩ := h
  rw [List.nodup_cons] at h2
  exact ⟨fun hin => hd hin (List.mem_cons_self _ _), h2.1⟩

/-- The active id set guarding the removal loop. -/
def activeIdsOf (addList clearOnly : List UserData) : List Nat :=
  (addList ++ clearOnly).map (fun u => u.userId)

/-- The grace store entering the removal loop, after the add loop and the
special-role clear loop. -/
def preStore (addList clearOnly : List UserData) (s0 : GraceStore) : GraceStore :=
  clearOnly.foldl (fun s u => gerase u.userId s) (addList.foldl astep (s0, [])).1

/-- The final state of the removal loop. -/
def coreB (g : Nat) (ts : String) (ls : Bool) (r0 : String)
    (guild : List Member) (addList clearOnly : List UserData)
    (s0 : GraceStore) : BState :=
  (guild.filter (fun m => m.hasHierarch)).foldl
    (bstep g ts ls r0 (activeIdsOf addList clearOnly))
    ⟨preStore addList clearOnly s0, [], [], []⟩

/-- Structural characterization of one decision run in terms of its loops. -/
theorem manageRolesCore_eq (g : Nat) (ts : String) (ls : Bool) (r0 : String)
    (guild : List Member) (addList clearOnly : List UserData)
    (s0 : GraceStore) :
    manageRolesCore g ts ls r0 guild addList clearOnly s0 =
      { rolesAdded := (addList.foldl astep (s0, [])).2
        rolesRemoved := (coreB g ts ls r0 guild addList clearOnly s0).removed
        graceUsers := (coreB g ts ls r0 guild addList clearOnly s0).graceUsers
        protectedSkipped := (coreB g ts ls r0 guild addList clearOnly s0).skipped
        graceTracking := (coreB g ts ls r0 guild addList clearOnly s0).grace } := rfl

/-- The added list of one run is exactly the map of the add list filtered
to the users lacking the role, independent of the grace store. -/
theorem manageRolesCore_rolesAdded (g : Nat) (ts : String) (ls : Bool)
    (r0 : String) (guild : List Member) (addList clearOnly : List UserData)
    (s0 : GraceStore) :
    (manageRolesCore g ts ls r0 guild addList clearOnly s0).rolesAdded =
      (addList.filter (fun u => !u.member.hasHierarch)).map mkAdded := by
  rw [manageRolesCore_eq]
  exact (afold_adds addList s0 []).trans (by simp)

/-- The id of every added entry is the id of a user of the add list. -/
theorem entriesA_nil_of_notmem {uid : Nat} {L : List UserData}
    (h : uid ∉ L.map (fun u => u.userId)) (p : UserData → Bool) :
    entriesA uid ((L.filter p).map mkAdded) = [] := by
  rw [entriesA, List.filter_eq_nil_iff]
  intro e he
  obtain ⟨v, hv, rfl⟩ := List.mem_map.mp he
  have hvL : v ∈ L := List.mem_of_mem_filter hv
  simp only [mkAdded, beq_iff_eq]
  intro hbeq
  exact h (hbeq ▸ List.mem_map.mpr ⟨v, hvL, rfl⟩)

/-- Nodup ids survive restriction to the role holders. -/
theorem nodup_holders {guild : List Member}
    (hnd : (guild.map (fun m => m.userId)).Nodup) :
    ((guild.filter (fun m => m.hasHierarch)).map (fun m => m.userId)).Nodup :=
  List.Nodup.sublist ((guild.filter_sublist).map (fun m => m.userId)) hnd

/-- A role holder of a guild with pairwise distinct ids splits the holder
list with no recurrence of its id on either side. -/
theorem holders_decomp {guild : List Member} {u : Member}
    (hmem : u ∈ guild) (hh : u.hasHierarch = true)
    (hnd : (guild.map (fun m => m.userId)).Nodup) :
    ∃ L1 L2, guild.filter (fun m => m.hasHierarch) = L1 ++ u :: L2 ∧
      u.userId ∉ L1.map (fun m => m.userId) ∧
      u.userId ∉ L2.map (fun m => m.userId) := by
  have hu : u ∈ guild.filter (fun m => m.hasHierarch) :=
    List.mem_filter.mpr ⟨hmem, hh⟩
  obtain ⟨L1, L2, hdec⟩ := List.append_of_mem hu
  have hnodup := nodup_holders hnd
  rw [hdec] at hnodup
  exact ⟨L1, L2, hdec, (notmem_ids_of_decomp hnodup).1,
    (notmem_ids_of_decomp hnodup).2⟩

/-- The store entering the removal loop agrees with the initial store on
every user outside the add and clear lists. -/
theorem preStore_lookup {uid : Nat} {addList clearOnly : List UserData}
    {s0 : GraceStore}
    (hq : uid ∉ (addList ++ clearOnly).map (fun v => v.userId)) :
    glookup uid (preStore addList clearOnly s0) = glookup uid s0 := by
  rw [List.map_append, List.mem_append] at hq
  push_neg at hq
  unfold preStore
  rw [cfold_glookup_ne _ _ hq.2, afold_glookup_ne _ _ _ hq.1]

/-- The store entering the removal loop holds no record for any user of the
add list (the add loop clears them). -/
theorem preStore_lookup_add {uid : Nat} {addList clearOnly : List UserData}
    {s0 : GraceStore} (hq : uid ∈ addList.map (fun v => v.userId)) :
    glookup uid (preStore addList clearOnly s0) = none := by
  unfold preStore
  exact cfold_glookup_none _ _ (afold_glookup_mem _ _ _ hq)

/-- The grace-clear loop erases the record of every user of its list. -/
theorem cfold_glookup_mem {id : Nat} :
    ∀ (L : List UserData) (s : GraceStore),
    id ∈ L.map (fun u => u.userId) →
    glookup id (L.foldl (fun s2 u => gerase u.userId s2) s) = none := by
  intro L
  induction L with
  | nil => intro s h; simp at h
  | cons u L ih =>
    intro s h
    rw [List.foldl_cons]
    simp only [List.map_cons, List.mem_cons] at h
    by_cases hu : id = u.userId
    · refine cfold_glookup_none _ _ ?_
      rw [hu, glookup_gerase_self]
    · exact ih _ (h.resolve_left hu)

/-- The store entering the removal loop holds, for any user, either the
initial record of that user or nothing (the first two loops only erase). -/
theorem preStore_lookup_or (uid : Nat) (addList clearOnly : List UserData)
    (s0 : GraceStore) :
    glookup uid (preStore addList clearOnly s0) = glookup uid s0 ∨
    glookup uid (preStore addList clearOnly s0) = none := by
  by_cases ha : uid ∈ addList.map (fun v => v.userId)
  · exact Or.inr (preStore_lookup_add ha)
  · by_cases hc : uid ∈ clearOnly.map (fun v => v.userId)
    · exact Or.inr (cfold_glookup_mem _ _ hc)
    · refine Or.inl (preStore_lookup ?_)
      rw [List.map_append, List.mem_append]
      push_neg
      exact ⟨ha, hc⟩

/-- Decision run seen by one disqualified unprotected role holder with no
existing grace record: grace starts at weeksOut 1. -/
theorem core_user_create (g : Nat) (ts : String) (ls : Bool) (r0 : String)
    (guild : List Member) (addList clearOnly : List UserData) (s0 : GraceStore)
    (u : Member)
    (hnd : (guild.map (fun m => m.userId)).Nodup)
    (hmem : u ∈ guild) (hh : u.hasHierarch = true) (hp : u.isProtected = false)
    (hq : u.userId ∉ (addList ++ clearOnly).map (fun v => v.userId))
    (hg : 0 < g) (hn : glookup u.userId s0 = none) :
    glookup u.userId
      (manageRolesCore g ts ls r0 guild addList clearOnly s0).graceTracking =
      some ⟨u.username, 1, ts⟩ ∧
    entriesG u.userId
      (manageRolesCore g ts ls r0 guild addList clearOnly s0).graceUsers =
      [⟨u.username, u.userId, 1, g - 1⟩] ∧
    entriesR u.userId
      (manageRolesCore g ts ls r0 guild addList clearOnly s0).rolesRemoved = [] ∧
    entriesA u.userId
      (manageRolesCore g ts ls r0 guild addList clearOnly s0).rolesAdded = [] := by
  obtain ⟨L1, L2, hdec, h1, h2⟩ := holders_decomp hmem hh hnd
  have hact : u.userId ∉ activeIdsOf addList clearOnly := hq
  have hfr1 := bfold_frame g ts ls r0 (activeIdsOf addList clearOnly) L1
    ⟨preStore addList clearOnly s0, [], [], []⟩ h1
  have hlook1 : glookup u.userId
      (L1.foldl (bstep g ts ls r0 (activeIdsOf addList clearOnly))
        ⟨preStore addList clearOnly s0, [], [], []⟩).grace = none := by
    rw [hfr1.1]
    show glookup u.userId (preStore addList clearOnly s0) = none
    rw [preStore_lookup hq, hn]
  have hstep := bstep_create ts ls r0 hact hp hg hlook1
  have hfr2 := bfold_frame g ts ls r0 (activeIdsOf addList clearOnly) L2
    (bstep g ts ls r0 (activeIdsOf addList clearOnly)
      (L1.foldl (bstep g ts ls r0 (activeIdsOf addList clearOnly))
        ⟨preStore addList clearOnly s0, [], [], []⟩) u) h2
  rw [manageRolesCore_eq]
  dsimp only
  unfold coreB
  rw [hdec, bfold_decomp]
  refine ⟨?_, ?_, ?_, ?_⟩
  · rw [hfr2.1, hstep]
    dsimp only
    rw [glookup_gset_self]
  · rw [hfr2.2.2.1, hstep]
    dsimp only
    rw [entriesG_append_self u.userId _ ⟨u.username, u.userId, 1, g - 1⟩ rfl,
      hfr1.2.2.1]
    simp [entriesG]
  · rw [hfr2.2.1, hstep]
    dsimp only
    rw [hfr1.2.1]
    simp [entriesR]
  · rw [afold_adds]
    have hqa : u.userId ∉ addList.map (fun v => v.userId) := by
      rw [List.map_append, List.mem_append] at hq
      push_neg at hq
      exact hq.1
    simpa using entriesA_nil_of_notmem hqa _

/-- Decision run seen by one disqualified unprotected role holder whose
grace record stays within the grace period: the counter advances by one. -/
theorem core_user_cont (g : Nat) (ts : String) (ls : Bool) (r0 : String)
    (guild : List Member) (addList clearOnly : List UserData) (s0 : GraceStore)
    (u : Member) (r : GraceRec)
    (hnd : (guild.map (fun m => m.userId)).Nodup)
    (hmem : u ∈ guild) (hh : u.hasHierarch = true) (hp : u.isProtected = false)
    (hq : u.userId ∉ (addList ++ clearOnly).map (fun v => v.userId))
    (hg : 0 < g) (hs : glookup u.userId s0 = some r)
    (hle : ¬g < r.weeksOut + 1) :
    glookup u.userId
      (manageRolesCore g ts ls r0 guild addList clearOnly s0).graceTracking =
      some { r with weeksOut := r.weeksOut + 1 } ∧
    entriesG u.userId
      (manageRolesCore g ts ls r0 guild addList clearOnly s0).graceUsers =
      [⟨u.username, u.userId, r.weeksOut + 1, g - (r.weeksOut + 1)⟩] ∧
    entriesR u.userId
      (manageRolesCore g ts ls r0 guild addList clearOnly s0).rolesRemoved = [] ∧
    entriesA u.userId
      (manageRolesCore g ts ls r0 guild addList clearOnly s0).rolesAdded = [] := by
  obtain ⟨L1, L2, hdec, h1, h2⟩ := holders_decomp hmem hh hnd
  have hact : u.userId ∉ activeIdsOf addList clearOnly := hq
  have hfr1 := bfold_frame g ts ls r0 (activeIdsOf addList clearOnly) L1
    ⟨preStore addList clearOnly s0, [], [], []⟩ h1
  have hlook1 : glookup u.userId
      (L1.foldl (bstep g ts ls r0 (activeIdsOf addList clearOnly))
        ⟨preStore addList clearOnly s0, [], [], []⟩).grace = some r := by
    rw [hfr1.1]
    show glookup u.userId (preStore addList clearOnly s0) = some r
    rw [preStore_lookup hq, hs]
  have hstep := bstep_cont ts ls r0 hact hp hg hlook1 hle
  have hfr2 := bfold_frame g ts ls r0 (activeIdsOf addList clearOnly) L2
    (bstep g ts ls r0 (activeIdsOf addList clearOnly)
      (L1.foldl (bstep g ts ls r0 (activeIdsOf addList clearOnly))
        ⟨preStore addList clearOnly s0, [], [], []⟩) u) h2
  rw [manageRolesCore_eq]
  dsimp only
  unfold coreB
  rw [hdec, bfold_decomp]
  refine ⟨?_, ?_, ?_, ?_⟩
  · rw [hfr2.1, hstep]
    dsimp only
    rw [glookup_gset_self]
  · rw [hfr2.2.2.1, hstep]
    dsimp only
    rw [entriesG_append_self u.userId _
      ⟨u.username, u.userId, r.weeksOut + 1, g - (r.weeksOut + 1)⟩ rfl,
      hfr1.2.2.1]
    simp [entriesG]
  · rw [hfr2.2.1, hstep]
    dsimp only
    rw [hfr1.2.1]
    simp [entriesR]
  · rw [afold_adds]
    have hqa : u.userId ∉ addList.map (fun v => v.userId) := by
      rw [List.map_append, List.mem_append] at hq
      push_neg at hq
      exact hq.1
    simpa using entriesA_nil_of_notmem hqa _

/-- Decision run seen by one disqualified unprotected role holder whose
incremented grace counter exceeds the grace period: exactly one removal
decision with reason "Grace period expired" and the record is deleted. -/
theorem core_user_exp (g : Nat) (ts : String) (ls : Bool) (r0 : String)
    (guild : List Member) (addList clearOnly : List UserData) (s0 : GraceStore)
    (u : Member) (r : GraceRec)
    (hnd : (guild.map (fun m => m.userId)).Nodup)
    (hmem : u ∈ guild) (hh : u.hasHierarch = true) (hp : u.isProtected = false)
    (hq : u.userId ∉ (addList ++ clearOnly).map (fun v => v.userId))
    (hg : 0 < g) (hs : glookup u.userId s0 = some r)
    (hgt : g < r.weeksOut + 1) :
    glookup u.userId
      (manageRolesCore g ts ls r0 guild addList clearOnly s0).graceTracking =
      none ∧
    entriesR u.userId
      (manageRolesCore g ts ls r0 guild addList clearOnly s0).rolesRemoved =
      [⟨u.username, u.userId, "Grace period expired", some (r.weeksOut + 1)⟩] ∧
    entriesG u.userId
      (manageRolesCore g ts ls r0 guild addList clearOnly s0).graceUsers = [] ∧
    entriesA u.userId
      (manageRolesCore g ts ls r0 guild addList clearOnly s0).rolesAdded = [] := by
  obtain ⟨L1, L2, hdec, h1, h2⟩ := holders_decomp hmem hh hnd
  have hact : u.userId ∉ activeIdsOf addList clearOnly := hq
  have hfr1 := bfold_frame g ts ls r0 (activeIdsOf addList clearOnly) L1
    ⟨preStore addList clearOnly s0, [], [], []⟩ h1
  have hlook1 : glookup u.userId
      (L1.foldl (bstep g ts ls r0 (activeIdsOf addList clearOnly))
        ⟨preStore addList clearOnly s0, [], [], []⟩).grace = some r := by
    rw [hfr1.1]
    show glookup u.userId (preStore addList clearOnly s0) = some r
    rw [preStore_lookup hq, hs]
  have hstep := bstep_exp ts ls r0 hact hp hg hlook1 hgt
  have hfr2 := bfold_frame g ts ls r0 (activeIdsOf addList clearOnly) L2
    (bstep g ts ls r0 (activeIdsOf addList clearOnly)
      (L1.foldl (bstep g ts ls r0 (activeIdsOf addList clearOnly))
        ⟨preStore addList clearOnly s0, [], [], []⟩) u) h2
  rw [manageRolesCore_eq]
  dsimp only
  unfold coreB
  rw [hdec, bfold_decomp]
  refine ⟨?_, ?_, ?_, ?_⟩
  · rw [hfr2.1, hstep]
    dsimp only
    rw [glookup_gerase_self]
  · rw [hfr2.2.1, hstep]
    dsimp only
    rw [entriesR_append_self u.userId _
      ⟨u.username, u.userId, "Grace period expired", some (r.weeksOut + 1)⟩ rfl,
      hfr1.2.1]
    simp [entriesR]
  · rw [hfr2.2.2.1, hstep]
    dsimp only
    rw [hfr1.2.2.1]
    simp [entriesG]
  · rw [afold_adds]
    have hqa : u.userId ∉ addList.map (fun v => v.userId) := by
      rw [List.map_append, List.mem_append] at hq
      push_neg at hq
      exact hq.1
    simpa using entriesA_nil_of_notmem hqa _

/-- Decision run seen by a protected member: no removal, no grace entry,
and an absent grace record stays absent, whatever the activity. -/
theorem core_user_protected (g : Nat) (ts : String) (ls : Bool) (r0 : String)
    (guild : List Member) (addList clearOnly : List UserData) (s0 : GraceStore)
    (u : Member)
    (hnd : (guild.map (fun m => m.userId)).Nodup)
    (hmem : u ∈ guild) (hpr : u.isProtected = true) :
    entriesR u.userId
      (manageRolesCore g ts ls r0 guild addList clearOnly s0).rolesRemoved = [] ∧
    entriesG u.userId
      (manageRolesCore g ts ls r0 guild addList clearOnly s0).graceUsers = [] ∧
    (glookup u.userId s0 = none →
      glookup u.userId
        (manageRolesCore g ts ls r0 guild addList clearOnly s0).graceTracking =
        none) := by
  have hcond : ∀ m ∈ guild.filter (fun m2 => m2.hasHierarch),
      m.userId = u.userId →
      m.userId ∈ activeIdsOf addList clearOnly ∨ m.isProtected = true := by
    intro m hm hid
    have hmg : m ∈ guild := (List.mem_filter.mp hm).1
    have : m = u := List.inj_on_of_nodup_map hnd hmg hmem hid
    exact Or.inr (this ▸ hpr)
  have hb := bfold_protected_cond g ts ls r0 (activeIdsOf addList clearOnly)
    u.userId (guild.filter (fun m => m.hasHierarch))
    ⟨preStore addList clearOnly s0, [], [], []⟩ hcond
  rw [manageRolesCore_eq]
  dsimp only
  unfold coreB
  refine ⟨?_, ?_, ?_⟩
  · rw [hb.2.1]
    simp [entriesR]
  · rw [hb.2.2]
    simp [entriesG]
  · intro hn
    rw [hb.1]
    show glookup u.userId (preStore addList clearOnly s0) = none
    rcases preStore_lookup_or u.userId addList clearOnly s0 with h | h
    · rw [h, hn]
    · exact h

/-- Unfolding of one part_000 run into the decision core. -/
theorem runOnce_eq (g : Nat) (ts : String) (guild : List Member)
    (ms : List (Nat × Nat)) (s : GraceStore) :
    runOnce g ts guild ms s =
      manageRolesCore g ts false "Not qualified" guild
        (qualUnion (qualifiedOf guild ms)) [] s := rfl

/-- Applying the decisions never changes the set of user ids of the guild. -/
theorem applyDecisions_ids (guild : List Member) (o : RunOut) :
    (applyDecisions guild o).map (fun m => m.userId) =
      guild.map (fun m => m.userId) := by
  unfold applyDecisions
  rw [List.map_map]
  refine List.map_eq_map_iff.mpr ?_
  intro m _
  dsimp only [Function.comp]
  split_ifs <;> rfl

/-- Applying the decisions changes nothing about a member beyond possession
of the privileged role. -/
theorem applyDecisions_mem {guild : List Member} (o : RunOut) {u : Member}
    (hmem : u ∈ guild) :
    ∃ u2 ∈ applyDecisions guild o, u2.userId = u.userId ∧
      u2.isProtected = u.isProtected ∧ u2.isSpecial = u.isSpecial ∧
      u2.isMember = u.isMember ∧ u2.username = u.username := by
  unfold applyDecisions
  refine ⟨_, List.mem_map.mpr ⟨u, hmem, rfl⟩, ?_⟩
  by_cases h1 : o.rolesAdded.any (fun e => e.userId == u.userId) = true
  · simp [h1]
  · by_cases h2 : o.rolesRemoved.any (fun e => e.userId == u.userId) = true
    · simp [h1, h2]
    · simp [h1, h2]

/-- A member mentioned in neither decision list survives the role mutator
entirely unchanged. -/
theorem applyDecisions_self {guild : List Member} {o : RunOut} {u : Member}
    (hmem : u ∈ guild) (ha : entriesA u.userId o.rolesAdded = [])
    (hr : entriesR u.userId o.rolesRemoved = []) :
    u ∈ applyDecisions guild o := by
  have h1 : o.rolesAdded.any (fun e => e.userId == u.userId) = false := by
    rw [List.any_eq_false]
    intro e he
    unfold entriesA at ha
    simpa using List.filter_eq_nil_iff.mp ha e he
  have h2 : o.rolesRemoved.any (fun e => e.userId == u.userId) = false := by
    rw [List.any_eq_false]
    intro e he
    unfold entriesR at hr
    simpa using List.filter_eq_nil_iff.mp hr e he
  refine List.mem_map.mpr ⟨u, hmem, ?_⟩
  simp [h1, h2]

/-- In a list sorted by descending mention count, the last element has the
minimal count. -/
theorem sortedDesc_getLast_min :
    ∀ (l : List UserData), List.Sorted byMentionsDesc l →
    ∀ v, l.getLast? = some v → ∀ w ∈ l, v.mentionCount ≤ w.mentionCount := by
  intro l
  induction l with
  | nil => intro _ v hv; simp at hv
  | cons a t ih =>
    intro hs v hv w hw
    cases t with
    | nil =>
      simp at hv
      rcases List.mem_singleton.mp hw with rfl
      rw [hv]
    | cons b t2 =>
      rw [List.getLast?_cons_cons] at hv
      rw [List.sorted_cons] at hs
      rcases List.mem_cons.mp hw with rfl | hw2
      · have hvmem : v ∈ b :: t2 := List.mem_of_mem_getLast? hv
        exact hs.1 v hvmem
      · exact ih hs.2 v hv w hw2

/-- The regular list produced by the classifier is sorted by descending
mention count. -/
theorem categorize_regular_sorted (guild : List Member) (ms : List (Nat × Nat)) :
    List.Sorted byMentionsDesc (categorizeMembers guild ms).1 :=
  List.sorted_insertionSort byMentionsDesc _

/-- The add loop of phase A preserves store well-formedness. -/
theorem afold_storeOk {g : Nat} :
    ∀ (L : List UserData) (s : GraceStore) (adds : List AddedEntry),
    StoreOk g s → StoreOk g (L.foldl astep (s, adds)).1 := by
  intro L
  induction L with
  | nil => intro s adds h; exact h
  | cons u L ih =>
    intro s adds h
    rw [List.foldl_cons,
      show astep (s, adds) u = ((astep (s, adds) u).1, (astep (s, adds) u).2) from rfl]
    refine ih _ _ ?_
    rw [astep_fst]
    exact storeOk_gerase h _

/-- The grace-clear loop preserves store well-formedness. -/
theorem cfold_storeOk {g : Nat} :
    ∀ (L : List UserData) (s : GraceStore),
    StoreOk g s → StoreOk g (L.foldl (fun s2 u => gerase u.userId s2) s) := by
  intro L
  induction L with
  | nil => intro s h; exact h
  | cons u L ih =>
    intro s h
    rw [List.foldl_cons]
    exact ih _ (storeOk_gerase h _)

/-- The store entering the removal loop is well-formed when the persisted
one was. -/
theorem preStore_storeOk {g : Nat} {addList clearOnly : List UserData}
    {s0 : GraceStore} (h : StoreOk g s0) :
    StoreOk g (preStore addList clearOnly s0) :=
  cfold_storeOk _ _ (afold_storeOk _ _ _ h)

/-- Example member with the privileged role and regular tier. -/
def mAlice : Member := ⟨1, "alice", true, false, false, true⟩

/-- Example regular member without the privileged role. -/
def mBob : Member := ⟨2, "bob", true, false, false, false⟩

/-- Example special-role member without the privileged role. -/
def mCarol : Member := ⟨3, "carol", true, false, true, false⟩

/-- Example protected member with the privileged role. -/
def mDave : Member := ⟨4, "dave", true, true, false, true⟩

/-- C2, counterexample: with a single evidenced Regular user of 7 mentions,
fewer than N = 30 Regular users are evidenced, yet the computed threshold
is 7 and not 0 — the code takes the count of the last ranked user whenever
any Regular user is evidenced, refuting the claim as stated. -/
theorem claim2_counterexample :
    (categorizeMembers [mBob] [(2, 7)]).1.length < TOP_COUNT ∧
    (qualifiedOf [mBob] [(2, 7)]).threshold = 7 ∧
    ¬(qualifiedOf [mBob] [(2, 7)]).threshold = 0 := by
  refine ⟨by decide, by decide, by decide⟩

/-- C2 (amended): the computed threshold equals the mention count of the
lowest-ranked qualified Regular user — the last of the ranked top-N
sequence, whose count is minimal among the qualified — and equals 0
exactly when no Regular user is evidenced at all (not merely fewer than N). -/
theorem claim2_threshold (guild : List Member) (ms : List (Nat × Nat)) :
    ((categorizeMembers guild ms).1 = [] → (qualifiedOf guild ms).threshold = 0) ∧
    ((categorizeMembers guild ms).1 ≠ [] →
      ∃ v, (qualifiedOf guild ms).top30Regular.getLast? = some v ∧
        (qualifiedOf guild ms).threshold = v.mentionCount ∧
        ∀ w ∈ (qualifiedOf guild ms).top30Regular,
          v.mentionCount ≤ w.mentionCount) := by
  constructor
  · intro h
    show (determineQualified (categorizeMembers guild ms).1
      (categorizeMembers guild ms).2.1 (categorizeMembers guild ms).2.2).threshold = 0
    rw [determineQualified, h]
    rfl
  · intro h
    have htake : (categorizeMembers guild ms).1.take TOP_COUNT ≠ [] := by
      rw [Ne, List.take_eq_nil_iff]
      push_neg
      exact ⟨by decide, h⟩
    cases hlast : ((categorizeMembers guild ms).1.take TOP_COUNT).getLast? with
    | none => exact absurd (List.getLast?_eq_none_iff.mp hlast) htake
    | some v =>
      refine ⟨v, ?_, ?_, ?_⟩
      · exact hlast
      · show (determineQualified (categorizeMembers guild ms).1
          (categorizeMembers guild ms).2.1 (categorizeMembers guild ms).2.2).threshold =
          v.mentionCount
        rw [determineQualified]
        simp [hlast]
      · intro w hw
        have hsorted : List.Sorted byMentionsDesc
            ((categorizeMembers guild ms).1.take TOP_COUNT) :=
          (categorize_regular_sorted guild ms).sublist
            (List.take_sublist TOP_COUNT _)
        exact sortedDesc_getLast_min _ hsorted v hlast w hw

/-- C2, witness of the amended theorem at a concrete input. -/
theorem claim2_witness :
    (((categorizeMembers [mBob] [(2, 7)]).1 = [] →
      (qualifiedOf [mBob] [(2, 7)]).threshold = 0) ∧
    ((categorizeMembers [mBob] [(2, 7)]).1 ≠ [] →
      ∃ v, (qualifiedOf [mBob] [(2, 7)]).top30Regular.getLast? = some v ∧
        (qualifiedOf [mBob] [(2, 7)]).threshold = v.mentionCount ∧
        ∀ w ∈ (qualifiedOf [mBob] [(2, 7)]).top30Regular,
          v.mentionCount ≤ w.mentionCount)) :=
  claim2_threshold [mBob] [(2, 7)]

/-- C3: every qualified Special user beats the threshold strictly (a tie
does not qualify), and with threshold 0 every evidenced Special user with
at least one mention qualifies. -/
theorem claim3_special_strict (guild : List Member) (ms : List (Nat × Nat)) :
    (∀ v ∈ (qualifiedOf guild ms).qualifiedSpecial,
      (qualifiedOf guild ms).threshold < v.mentionCount) ∧
    ((qualifiedOf guild ms).threshold = 0 →
      ∀ v ∈ (categorizeMembers guild ms).2.1, 1 ≤ v.mentionCount →
        v ∈ (qualifiedOf guild ms).qualifiedSpecial) := by
  constructor
  · intro v hv
    have hm := List.mem_filter.mp hv
    simpa using hm.2
  · intro h0 v hv hc
    show v ∈ (determineQualified (categorizeMembers guild ms).1
      (categorizeMembers guild ms).2.1 (categorizeMembers guild ms).2.2).qualifiedSpecial
    have hth : (determineQualified (categorizeMembers guild ms).1
        (categorizeMembers guild ms).2.1
        (categorizeMembers guild ms).2.2).threshold = 0 := h0
    rw [determineQualified] at hth ⊢
    refine List.mem_filter.mpr ⟨hv, ?_⟩
    simp only at hth
    simp [hth]
    omega

/-- C3, witness at a concrete input: a lone Special user with one mention
against an empty Regular field. -/
theorem claim3_witness :
    ((∀ v ∈ (qualifiedOf [mCarol] [(3, 1)]).qualifiedSpecial,
      (qualifiedOf [mCarol] [(3, 1)]).threshold < v.mentionCount) ∧
    ((qualifiedOf [mCarol] [(3, 1)]).threshold = 0 →
      ∀ v ∈ (categorizeMembers [mCarol] [(3, 1)]).2.1, 1 ≤ v.mentionCount →
        v ∈ (qualifiedOf [mCarol] [(3, 1)]).qualifiedSpecial)) :=
  claim3_special_strict [mCarol] [(3, 1)]

/-- C5: the added list of a run is exactly the qualified union (top-30
regular, qualified special, qualified protected) restricted to the users
who do not currently hold the privileged role. -/
theorem claim5_added (g : Nat) (ts : String) (guild : List Member)
    (q : Qualified) (s0 : GraceStore) (o : RunOut)
    (hout : manageRoles g ts guild true q s0 = some o) :
    o.rolesAdded =
      ((qualUnion q).filter (fun u => !u.member.hasHierarch)).map mkAdded := by
  have ho : o = manageRolesCore g ts false "Not qualified" guild (qualUnion q) [] s0 := by
    have := hout
    rw [manageRoles, if_pos rfl] at this
    exact (Option.some.inj this).symm
  rw [ho, manageRolesCore_rolesAdded]

/-- C5, witness at a concrete input: one qualified regular user without the
role is added. -/
theorem claim5_witness :
    (manageRoles 2 "t" [mBob] true (qualifiedOf [mBob] [(2, 7)]) [] =
      some (manageRolesCore 2 "t" false "Not qualified" [mBob]
        (qualUnion (qualifiedOf [mBob] [(2, 7)])) [] [])) ∧
    (manageRolesCore 2 "t" false "Not qualified" [mBob]
        (qualUnion (qualifiedOf [mBob] [(2, 7)])) [] []).rolesAdded =
      ((qualUnion (qualifiedOf [mBob] [(2, 7)])).filter
        (fun u => !u.member.hasHierarch)).map mkAdded :=
  ⟨rfl, claim5_added 2 "t" [mBob] (qualifiedOf [mBob] [(2, 7)]) [] _ rfl⟩

/-- C6: after a run, no user of the qualified union of that run has a
record in the persisted grace store. -/
theorem claim6_qualified_cleared (g : Nat) (ts : String) (guild : List Member)
    (q : Qualified) (s0 : GraceStore) (o : RunOut) (uid : Nat)
    (hout : manageRoles g ts guild true q s0 = some o)
    (hu : uid ∈ (qualUnion q).map (fun v => v.userId)) :
    glookup uid o.graceTracking = none := by
  have ho : o = manageRolesCore g ts false "Not qualified" guild (qualUnion q) [] s0 := by
    have := hout
    rw [manageRoles, if_pos rfl] at this
    exact (Option.some.inj this).symm
  rw [ho, manageRolesCore_eq]
  dsimp only
  unfold coreB
  have hact : uid ∈ activeIdsOf (qualUnion q) [] := by
    unfold activeIdsOf
    simpa using hu
  refine bfold_active_none hact _ _ ?_
  show glookup uid (preStore (qualUnion q) [] s0) = none
  exact preStore_lookup_add (by simpa using hu)

/-- C6, witness at a concrete input: a qualified holder with an existing
grace record sees the record cleared. -/
theorem claim6_witness :
    (manageRoles 2 "t" [mAlice] true (qualifiedOf [mAlice] [(1, 5)])
        [(1, ⟨"alice", 1, "t0"⟩)] =
      some (manageRolesCore 2 "t" false "Not qualified" [mAlice]
        (qualUnion (qualifiedOf [mAlice] [(1, 5)])) [] [(1, ⟨"alice", 1, "t0"⟩)])) ∧
    (1 ∈ (qualUnion (qualifiedOf [mAlice] [(1, 5)])).map (fun v => v.userId)) ∧
    glookup 1 (manageRolesCore 2 "t" false "Not qualified" [mAlice]
      (qualUnion (qualifiedOf [mAlice] [(1, 5)])) [] [(1, ⟨"alice", 1, "t0"⟩)]).graceTracking =
      none :=
  ⟨rfl, by decide,
    claim6_qualified_cleared 2 "t" [mAlice] (qualifiedOf [mAlice] [(1, 5)])
      [(1, ⟨"alice", 1, "t0"⟩)] _ 1 rfl (by decide)⟩

/-- C8, counterexample: two immediate runs with identical inputs and no
role mutation in between do not give identical removed lists — a grace
record at weeksOut 1 under G = 2 advances to 2 in the first run and expires
in the second, which removes the user only the second time. -/
theorem claim8_counterexample :
    (runOnce GRACE_PERIOD_WEEKS "t" [mAlice] [] [(1, ⟨"alice", 1, "t0"⟩)]).rolesRemoved
      = [] ∧
    (runOnce GRACE_PERIOD_WEEKS "t" [mAlice] []
      (runOnce GRACE_PERIOD_WEEKS "t" [mAlice] []
        [(1, ⟨"alice", 1, "t0"⟩)]).graceTracking).rolesRemoved =
      [⟨"alice", 1, "Grace period expired", some 3⟩] ∧
    (runOnce GRACE_PERIOD_WEEKS "t" [mAlice] []
      (runOnce GRACE_PERIOD_WEEKS "t" [mAlice] []
        [(1, ⟨"alice", 1, "t0"⟩)]).graceTracking).rolesRemoved ≠
      (runOnce GRACE_PERIOD_WEEKS "t" [mAlice] []
        [(1, ⟨"alice", 1, "t0"⟩)]).rolesRemoved := by
  refine ⟨by decide, by decide, by decide⟩

/-- C8 (amended): under identical activity input and role possession, the
second of two immediate runs produces the identical added list (the add
decisions do not depend on the grace store); the removed lists can differ
because grace counters advance on every run. -/
theorem claim8_added_idempotent (g : Nat) (ts1 ts2 : String)
    (guild : List Member) (ms : List (Nat × Nat)) (s0 : GraceStore) :
    (runOnce g ts2 guild ms (runOnce g ts1 guild ms s0).graceTracking).rolesAdded =
      (runOnce g ts1 guild ms s0).rolesAdded := by
  rw [runOnce_eq, runOnce_eq, manageRolesCore_rolesAdded, manageRolesCore_rolesAdded]

/-- C9, counterexample: with the privileged role missing from the
directory, the run produces no decision record (nothing is mutated), yet
the process still reports success — manageRoles returns early without
throwing and the summary failure is swallowed, so the ready handler logs
success and exits 0, refuting the claim that the run does not report
success. -/
theorem claim9_counterexample :
    readyRun GRACE_PERIOD_WEEKS "t" [mAlice] [] [] false = (true, none) := rfl

/-- C9 (amended): a missing privileged-role object aborts manageRoles
before any role mutation or grace-store write — no decision record exists —
but the run still completes and reports success. -/
theorem claim9_missing_role (g : Nat) (ts : String) (guild : List Member)
    (ms : List (Nat × Nat)) (s0 : GraceStore) :
    manageRoles g ts guild false (qualifiedOf guild ms) s0 = none ∧
    readyRun g ts guild ms s0 false = (true, none) := by
  constructor
  · rw [manageRoles, if_neg (by simp)]
  · rw [readyRun]
    rw [show manageRoles g ts guild false (qualifiedOf guild ms) s0 = none from
      by rw [manageRoles, if_neg (by simp)]]

/-- C10: a run with a positive grace period keeps the persisted store
well-formed — every remaining record has weeksOut between 1 and G
inclusive; records are created at 1 and an incremented record exceeding G
is deleted in the same run instead of persisted. -/
theorem claim10_store_invariant (g : Nat) (ts : String) (guild : List Member)
    (q : Qualified) (s0 : GraceStore) (o : RunOut)
    (hg : 0 < g) (hok : StoreOk g s0)
    (hout : manageRoles g ts guild true q s0 = some o) :
    StoreOk g o.graceTracking := by
  have ho : o = manageRolesCore g ts false "Not qualified" guild (qualUnion q) [] s0 := by
    have := hout
    rw [manageRoles, if_pos rfl] at this
    exact (Option.some.inj this).symm
  rw [ho, manageRolesCore_eq]
  dsimp only
  unfold coreB
  exact bfold_storeOk _ _ (preStore_storeOk hok)

/-- C10, witness at a concrete input: a record at the boundary is expired
away and the surviving store is well-formed. -/
theorem claim10_witness :
    0 < (2 : Nat) ∧
    StoreOk 2 [(1, ⟨"alice", 2, "t0"⟩)] ∧
    StoreOk 2 (manageRolesCore 2 "t" false "Not qualified" [mAlice]
      (qualUnion (qualifiedOf [mAlice] [])) [] [(1, ⟨"alice", 2, "t0"⟩)]).graceTracking :=
  ⟨by decide, by unfold StoreOk; decide,
    claim10_store_invariant 2 "t" [mAlice] (qualifiedOf [mAlice] [])
      [(1, ⟨"alice", 2, "t0"⟩)] _ (by decide) (by unfold StoreOk; decide) rfl⟩

/-- C4: a protected member is never removed and never tracked for grace —
no removal entry and no grace entry ever carries their id, and when they
have no grace record at the start they never acquire one — across any
number of consecutive runs, whatever the activity inputs. -/
theorem claim4_protected_exemption (g : Nat) :
    ∀ (inputs : List (String × List (Nat × Nat))) (guild : List Member)
      (s0 : GraceStore) (u : Member),
    (guild.map (fun m => m.userId)).Nodup → u ∈ guild → u.isProtected = true →
    glookup u.userId s0 = none →
    (∀ o ∈ (runSeq g inputs guild s0).1,
      entriesR u.userId o.rolesRemoved = [] ∧
      entriesG u.userId o.graceUsers = []) ∧
    glookup u.userId (runSeq g inputs guild s0).2.2 = none := by
  intro inputs
  induction inputs with
  | nil =>
    intro guild s0 u _ _ _ hn
    exact ⟨by intro o ho; simp [runSeq] at ho, by simpa [runSeq] using hn⟩
  | cons p rest ih =>
    obtain ⟨ts, ms⟩ := p
    intro guild s0 u hnd hmem hpr hn
    have h1 := core_user_protected g ts false "Not qualified" guild
      (qualUnion (qualifiedOf guild ms)) [] s0 u hnd hmem hpr
    obtain ⟨u2, hu2mem, hu2id, hu2prot, _⟩ :=
      applyDecisions_mem (runOnce g ts guild ms s0) hmem
    have hnd2 : ((applyDecisions guild (runOnce g ts guild ms s0)).map
        (fun m => m.userId)).Nodup := by
      rw [applyDecisions_ids]; exact hnd
    have hn2 : glookup u2.userId (runOnce g ts guild ms s0).graceTracking = none := by
      rw [hu2id, runOnce_eq]
      exact h1.2.2 hn
    have ihall := ih (applyDecisions guild (runOnce g ts guild ms s0))
      (runOnce g ts guild ms s0).graceTracking u2 hnd2 hu2mem
      (hu2prot.trans hpr) hn2
    rw [hu2id] at ihall
    constructor
    · intro o ho
      simp only [runSeq] at ho
      rcases List.mem_cons.mp ho with rfl | ho2
      · rw [runOnce_eq]
        exact ⟨h1.1, h1.2.1⟩
      · exact ihall.1 o ho2
    · simp only [runSeq]
      exact ihall.2

/-- C4, witness: a protected role holder with zero mentions across three
runs is never removed and never acquires a grace record. -/
theorem claim4_witness :
    (([mDave].map (fun m => m.userId)).Nodup ∧ mDave ∈ [mDave] ∧
      mDave.isProtected = true ∧ glookup mDave.userId [] = none) ∧
    ((∀ o ∈ (runSeq 2 [("t1", []), ("t2", []), ("t3", [])] [mDave] []).1,
      entriesR mDave.userId o.rolesRemoved = [] ∧
      entriesG mDave.userId o.graceUsers = []) ∧
    glookup mDave.userId
      (runSeq 2 [("t1", []), ("t2", []), ("t3", [])] [mDave] []).2.2 = none) :=
  ⟨⟨by decide, by decide, rfl, rfl⟩,
    claim4_protected_exemption 2 [("t1", []), ("t2", []), ("t3", [])] [mDave] []
      mDave (by decide) (by decide) rfl rfl⟩

/-- C1: with grace period G = 2 (GRACE_PERIOD_WEEKS of part_000), a role
holder without a grace record who is disqualified on three consecutive
runs advances GraceStarted at weeksOut 1 in the first run and
GraceContinuing at weeksOut 2 in the second; the third run expires the
state: exactly one removal decision for that user, with reason
"Grace period expired" at weeksOut 3, and the grace record is deleted. -/
theorem claim1_grace_expiry
    (ts1 ts2 ts3 : String) (guild guild2 guild3 : List Member)
    (ms1 ms2 ms3 : List (Nat × Nat)) (s0 : GraceStore)
    (o1 o2 o3 : RunOut) (u : Member)
    (hnd : (guild.map (fun m => m.userId)).Nodup)
    (hmem : u ∈ guild) (hh : u.hasHierarch = true) (hp : u.isProtected = false)
    (hn : glookup u.userId s0 = none)
    (ho1 : o1 = runOnce GRACE_PERIOD_WEEKS ts1 guild ms1 s0)
    (hg2 : guild2 = applyDecisions guild o1)
    (ho2 : o2 = runOnce GRACE_PERIOD_WEEKS ts2 guild2 ms2 o1.graceTracking)
    (hg3 : guild3 = applyDecisions guild2 o2)
    (ho3 : o3 = runOnce GRACE_PERIOD_WEEKS ts3 guild3 ms3 o2.graceTracking)
    (hq1 : u.userId ∉ (qualUnion (qualifiedOf guild ms1)).map (fun v => v.userId))
    (hq2 : u.userId ∉ (qualUnion (qualifiedOf guild2 ms2)).map (fun v => v.userId))
    (hq3 : u.userId ∉ (qualUnion (qualifiedOf guild3 ms3)).map (fun v => v.userId)) :
    entriesG u.userId o1.graceUsers = [⟨u.username, u.userId, 1, 1⟩] ∧
    glookup u.userId o1.graceTracking = some ⟨u.username, 1, ts1⟩ ∧
    entriesR u.userId o1.rolesRemoved = [] ∧
    entriesG u.userId o2.graceUsers = [⟨u.username, u.userId, 2, 0⟩] ∧
    glookup u.userId o2.graceTracking = some ⟨u.username, 2, ts1⟩ ∧
    entriesR u.userId o2.rolesRemoved = [] ∧
    entriesR u.userId o3.rolesRemoved =
      [⟨u.username, u.userId, "Grace period expired", some 3⟩] ∧
    entriesG u.userId o3.graceUsers = [] ∧
    glookup u.userId o3.graceTracking = none := by
  subst ho1 hg2 ho2 hg3 ho3
  have hq1a : u.userId ∉
      ((qualUnion (qualifiedOf guild ms1)) ++ ([] : List UserData)).map
        (fun v => v.userId) := by
    simpa using hq1
  have hone : 0 < GRACE_PERIOD_WEEKS := by decide
  have h1 := core_user_create GRACE_PERIOD_WEEKS ts1 false "Not qualified" guild
    (qualUnion (qualifiedOf guild ms1)) [] s0 u hnd hmem hh hp hq1a hone hn
  rw [← runOnce_eq] at h1
  -- the member survives run 1 untouched
  have hu2 : u ∈ applyDecisions guild (runOnce GRACE_PERIOD_WEEKS ts1 guild ms1 s0) :=
    applyDecisions_self hmem h1.2.2.2 h1.2.2.1
  have hnd2 : ((applyDecisions guild
      (runOnce GRACE_PERIOD_WEEKS ts1 guild ms1 s0)).map (fun m => m.userId)).Nodup := by
    rw [applyDecisions_ids]; exact hnd
  have hq2a : u.userId ∉
      ((qualUnion (qualifiedOf (applyDecisions guild
        (runOnce GRACE_PERIOD_WEEKS ts1 guild ms1 s0)) ms2)) ++
        ([] : List UserData)).map (fun v => v.userId) := by
    simpa using hq2
  have h2 := core_user_cont GRACE_PERIOD_WEEKS ts2 false "Not qualified"
    (applyDecisions guild (runOnce GRACE_PERIOD_WEEKS ts1 guild ms1 s0))
    (qualUnion (qualifiedOf (applyDecisions guild
      (runOnce GRACE_PERIOD_WEEKS ts1 guild ms1 s0)) ms2)) []
    (runOnce GRACE_PERIOD_WEEKS ts1 guild ms1 s0).graceTracking u
    ⟨u.username, 1, ts1⟩ hnd2 hu2 hh hp hq2a hone
    h1.1 (by norm_num [GRACE_PERIOD_WEEKS])
  rw [← runOnce_eq] at h2
  -- the member survives run 2 untouched
  have hu3 : u ∈ applyDecisions
      (applyDecisions guild (runOnce GRACE_PERIOD_WEEKS ts1 guild ms1 s0))
      (runOnce GRACE_PERIOD_WEEKS ts2
        (applyDecisions guild (runOnce GRACE_PERIOD_WEEKS ts1 guild ms1 s0)) ms2
        (runOnce GRACE_PERIOD_WEEKS ts1 guild ms1 s0).graceTracking) :=
    applyDecisions_self hu2 h2.2.2.2 h2.2.2.1
  have hnd3 : ((applyDecisions
      (applyDecisions guild (runOnce GRACE_PERIOD_WEEKS ts1 guild ms1 s0))
      (runOnce GRACE_PERIOD_WEEKS ts2
        (applyDecisions guild (runOnce GRACE_PERIOD_WEEKS ts1 guild ms1 s0)) ms2
        (runOnce GRACE_PERIOD_WEEKS ts1 guild ms1 s0).graceTracking)).map
      (fun m => m.userId)).Nodup := by
    rw [applyDecisions_ids]; exact hnd2
  have hq3a : u.userId ∉
      ((qualUnion (qualifiedOf (applyDecisions
        (applyDecisions guild (runOnce GRACE_PERIOD_WEEKS ts1 guild ms1 s0))
        (runOnce GRACE_PERIOD_WEEKS ts2
          (applyDecisions guild (runOnce GRACE_PERIOD_WEEKS ts1 guild ms1 s0)) ms2
          (runOnce GRACE_PERIOD_WEEKS ts1 guild ms1 s0).graceTracking)) ms3)) ++
        ([] : List UserData)).map (fun v => v.userId) := by
    simpa using hq3
  have h3 := core_user_exp GRACE_PERIOD_WEEKS ts3 false "Not qualified"
    (applyDecisions
      (applyDecisions guild (runOnce GRACE_PERIOD_WEEKS ts1 guild ms1 s0))
      (runOnce GRACE_PERIOD_WEEKS ts2
        (applyDecisions guild (runOnce GRACE_PERIOD_WEEKS ts1 guild ms1 s0)) ms2
        (runOnce GRACE_PERIOD_WEEKS ts1 guild ms1 s0).graceTracking))
    (qualUnion (qualifiedOf (applyDecisions
      (applyDecisions guild (runOnce GRACE_PERIOD_WEEKS ts1 guild ms1 s0))
      (runOnce GRACE_PERIOD_WEEKS ts2
        (applyDecisions guild (runOnce GRACE_PERIOD_WEEKS ts1 guild ms1 s0)) ms2
        (runOnce GRACE_PERIOD_WEEKS ts1 guild ms1 s0).graceTracking)) ms3)) []
    (runOnce GRACE_PERIOD_WEEKS ts2
      (applyDecisions guild (runOnce GRACE_PERIOD_WEEKS ts1 guild ms1 s0)) ms2
      (runOnce GRACE_PERIOD_WEEKS ts1 guild ms1 s0).graceTracking).graceTracking u
    ⟨u.username, 2, ts1⟩ hnd3 hu3 hh hp hq3a hone
    h2.1 (by norm_num [GRACE_PERIOD_WEEKS])
  rw [← runOnce_eq] at h3
  exact ⟨h1.2.1, h1.1, h1.2.2.1, h2.2.1, h2.1, h2.2.2.1, h3.2.1, h3.2.2.1, h3.1⟩

/-- First run of the C1 witness scenario: one unmentioned role holder. -/
def w1o1 : RunOut := runOnce GRACE_PERIOD_WEEKS "t1" [mAlice] [] []

/-- Guild after the first witness run. -/
def w1g2 : List Member := applyDecisions [mAlice] w1o1

/-- Second run of the C1 witness scenario. -/
def w1o2 : RunOut := runOnce GRACE_PERIOD_WEEKS "t2" w1g2 [] w1o1.graceTracking

/-- Guild after the second witness run. -/
def w1g3 : List Member := applyDecisions w1g2 w1o2

/-- Third run of the C1 witness scenario. -/
def w1o3 : RunOut := runOnce GRACE_PERIOD_WEEKS "t3" w1g3 [] w1o2.graceTracking

/-- C1, witness: the three-run expiry scenario at a concrete one-member
guild with zero mentions. -/
theorem claim1_witness :
    entriesG 1 w1o1.graceUsers = [⟨"alice", 1, 1, 1⟩] ∧
    glookup 1 w1o1.graceTracking = some ⟨"alice", 1, "t1"⟩ ∧
    entriesR 1 w1o1.rolesRemoved = [] ∧
    entriesG 1 w1o2.graceUsers = [⟨"alice", 1, 2, 0⟩] ∧
    glookup 1 w1o2.graceTracking = some ⟨"alice", 2, "t1"⟩ ∧
    entriesR 1 w1o2.rolesRemoved = [] ∧
    entriesR 1 w1o3.rolesRemoved =
      [⟨"alice", 1, "Grace period expired", some 3⟩] ∧
    entriesG 1 w1o3.graceUsers = [] ∧
    glookup 1 w1o3.graceTracking = none :=
  claim1_grace_expiry "t1" "t2" "t3" [mAlice] w1g2 w1g3 [] [] [] []
    w1o1 w1o2 w1o3 mAlice (by decide) (by decide) rfl rfl rfl
    rfl rfl rfl rfl rfl (by decide) (by decide) (by decide)

/-- Every eligible user of role-manager.js carries the guild member it was
built from, under its own id. -/
theorem filterEligible_mem (guild : List Member) (ms : List (Nat × Nat)) :
    ∀ v ∈ filterEligibleUsers guild ms,
    v.member ∈ guild ∧ v.member.userId = v.userId := by
  have key : ∀ (L : List (Nat × Nat)) (acc : List UserData),
      (∀ v ∈ acc, v.member ∈ guild ∧ v.member.userId = v.userId) →
      ∀ v ∈ L.foldl
        (fun acc e =>
          match guild.find? (fun m => m.userId == e.1) with
          | none => acc
          | some m =>
            if m.isMember = false then acc
            else if m.isSpecial || m.isProtected then acc
            else acc ++ [mkUserData e m])
        acc,
      v.member ∈ guild ∧ v.member.userId = v.userId := by
    intro L
    induction L with
    | nil => intro acc hacc v hv; exact hacc v hv
    | cons e L ih =>
      intro acc hacc v hv
      rw [List.foldl_cons] at hv
      refine ih _ ?_ v hv
      intro w hw
      cases hf : guild.find? (fun m => m.userId == e.1) with
      | none =>
        simp only [hf] at hw
        exact hacc w hw
      | some m =>
        simp only [hf] at hw
        by_cases h1 : m.isMember = false
        · rw [if_pos h1] at hw; exact hacc w hw
        · rw [if_neg h1] at hw
          by_cases h2 : (m.isSpecial || m.isProtected) = true
          · rw [if_pos h2] at hw; exact hacc w hw
          · rw [if_neg h2] at hw
            rcases List.mem_append.mp hw with hw | hw
            · exact hacc w hw
            · rcases List.mem_singleton.mp hw with rfl
              refine ⟨List.mem_of_find?_eq_some hf, ?_⟩
              have hbeq := List.find?_some hf
              simpa [mkUserData] using hbeq
  intro v hv
  unfold filterEligibleUsers sortDesc at hv
  rw [List.mem_insertionSort] at hv
  exact key ms [] (by intro w hw; simp at hw) v hv

/-- Two guild members with the same id are the same member when guild ids
are pairwise distinct. -/
theorem guild_member_unique {guild : List Member}
    (hnd : (guild.map (fun m => m.userId)).Nodup) {m1 m2 : Member}
    (h1 : m1 ∈ guild) (h2 : m2 ∈ guild) (hid : m1.userId = m2.userId) :
    m1 = m2 :=
  List.inj_on_of_nodup_map hnd h1 h2 hid

/-- An id carried by an added entry (a top-30 user without the role) can
never be an id of a role holder of the same guild. -/
theorem added_id_not_holder {guild : List Member} {ms : List (Nat × Nat)}
    (hnd : (guild.map (fun m => m.userId)).Nodup) {eid : Nat}
    (hadd : ∃ v ∈ (filterEligibleUsers guild ms).take TOP_COUNT,
      eid = v.userId ∧ v.member.hasHierarch = false)
    (hhold : ∃ m2 ∈ guild, m2.hasHierarch = true ∧ eid = m2.userId) : False := by
  obtain ⟨v, hv, hvid, hvrole⟩ := hadd
  obtain ⟨m2, hm2, hm2role, hm2id⟩ := hhold
  have hve := filterEligible_mem guild ms v (List.mem_of_mem_take hv)
  have heq : v.member = m2 :=
    guild_member_unique hnd hve.1 hm2 (by rw [hve.2, ← hvid, hm2id])
  rw [heq, hm2role] at hvrole
  exact absurd hvrole (by simp)

/-- Two entries of one user in two different removal-loop output lists
contradict the single-entry bound: removed and grace. -/
theorem countFor_two_RG (id : Nat) (st : BState) {e1 : RemovedEntry}
    {e2 : GraceEntry} (h1 : e1 ∈ st.removed) (hid1 : e1.userId = id)
    (h2 : e2 ∈ st.graceUsers) (hid2 : e2.userId = id) : 2 ≤ countFor id st := by
  have hm1 : e1 ∈ entriesR id st.removed :=
    List.mem_filter.mpr ⟨h1, by simp [hid1]⟩
  have hm2 : e2 ∈ entriesG id st.graceUsers :=
    List.mem_filter.mpr ⟨h2, by simp [hid2]⟩
  have := List.length_pos_of_mem hm1
  have := List.length_pos_of_mem hm2
  unfold countFor
  omega

/-- Two entries of one user in two different removal-loop output lists
contradict the single-entry bound: removed and skipped. -/
theorem countFor_two_RS (id : Nat) (st : BState) {e1 : RemovedEntry}
    {e2 : SkippedEntry} (h1 : e1 ∈ st.removed) (hid1 : e1.userId = id)
    (h2 : e2 ∈ st.skipped) (hid2 : e2.userId = id) : 2 ≤ countFor id st := by
  have hm1 : e1 ∈ entriesR id st.removed :=
    List.mem_filter.mpr ⟨h1, by simp [hid1]⟩
  have hm2 : e2 ∈ entriesS id st.skipped :=
    List.mem_filter.mpr ⟨h2, by simp [hid2]⟩
  have := List.length_pos_of_mem hm1
  have := List.length_pos_of_mem hm2
  unfold countFor
  omega

/-- Two entries of one user in two different removal-loop output lists
contradict the single-entry bound: grace and skipped. -/
theorem countFor_two_GS (id : Nat) (st : BState) {e1 : GraceEntry}
    {e2 : SkippedEntry} (h1 : e1 ∈ st.graceUsers) (hid1 : e1.userId = id)
    (h2 : e2 ∈ st.skipped) (hid2 : e2.userId = id) : 2 ≤ countFor id st := by
  have hm1 : e1 ∈ entriesG id st.graceUsers :=
    List.mem_filter.mpr ⟨h1, by simp [hid1]⟩
  have hm2 : e2 ∈ entriesS id st.skipped :=
    List.mem_filter.mpr ⟨h2, by simp [hid2]⟩
  have := List.length_pos_of_mem hm1
  have := List.length_pos_of_mem hm2
  unfold countFor
  omega

/-- C7: within a single role-manager.js run no user appears in more than
one of the four output lists added, removed, graceActive, protectedSkipped. -/
theorem claim7_lists_disjoint (g : Nat) (ts : String) (guild : List Member)
    (ms : List (Nat × Nat)) (s0 : GraceStore) (o : RunOut)
    (hnd : (guild.map (fun m => m.userId)).Nodup)
    (hout : manageRolesRM g ts guild true
      ((filterEligibleUsers guild ms).take TOP_COUNT)
      (getActiveSpecialRoles guild ms) s0 = some o) :
    (∀ e1 ∈ o.rolesAdded, ∀ e2 ∈ o.rolesRemoved, e1.userId ≠ e2.userId) ∧
    (∀ e1 ∈ o.rolesAdded, ∀ e2 ∈ o.graceUsers, e1.userId ≠ e2.userId) ∧
    (∀ e1 ∈ o.rolesAdded, ∀ e2 ∈ o.protectedSkipped, e1.userId ≠ e2.userId) ∧
    (∀ e1 ∈ o.rolesRemoved, ∀ e2 ∈ o.graceUsers, e1.userId ≠ e2.userId) ∧
    (∀ e1 ∈ o.rolesRemoved, ∀ e2 ∈ o.protectedSkipped, e1.userId ≠ e2.userId) ∧
    (∀ e1 ∈ o.graceUsers, ∀ e2 ∈ o.protectedSkipped, e1.userId ≠ e2.userId) := by
  have ho : o = manageRolesCore g ts true "Not in top 30" guild
      ((filterEligibleUsers guild ms).take TOP_COUNT)
      (getActiveSpecialRoles guild ms) s0 := by
    have h2 := hout
    rw [manageRolesRM, if_pos rfl] at h2
    exact (Option.some.inj h2).symm
  subst ho
  have haddsrc : ∀ e ∈ (manageRolesCore g ts true "Not in top 30" guild
      ((filterEligibleUsers guild ms).take TOP_COUNT)
      (getActiveSpecialRoles guild ms) s0).rolesAdded,
      ∃ v ∈ (filterEligibleUsers guild ms).take TOP_COUNT,
        e.userId = v.userId ∧ v.member.hasHierarch = false := by
    intro e he
    rw [manageRolesCore_rolesAdded] at he
    obtain ⟨v, hv, rfl⟩ := List.mem_map.mp he
    have hvf := List.mem_filter.mp hv
    exact ⟨v, hvf.1, rfl, by simpa using hvf.2⟩
  have hremsrc : ∀ e ∈ (manageRolesCore g ts true "Not in top 30" guild
      ((filterEligibleUsers guild ms).take TOP_COUNT)
      (getActiveSpecialRoles guild ms) s0).rolesRemoved,
      ∃ m2 ∈ guild, m2.hasHierarch = true ∧ e.userId = m2.userId := by
    intro e he
    have he2 : e ∈ (coreB g ts true "Not in top 30" guild
        ((filterEligibleUsers guild ms).take TOP_COUNT)
        (getActiveSpecialRoles guild ms) s0).removed := he
    unfold coreB at he2
    rcases (bfold_sources _ _).1 e he2 with h3 | h3
    · simp at h3
    · rw [List.mem_map] at h3
      obtain ⟨m2, hm2, hid⟩ := h3
      have hmf := List.mem_filter.mp hm2
      exact ⟨m2, hmf.1, hmf.2, hid.symm⟩
  have hgrsrc : ∀ e ∈ (manageRolesCore g ts true "Not in top 30" guild
      ((filterEligibleUsers guild ms).take TOP_COUNT)
      (getActiveSpecialRoles guild ms) s0).graceUsers,
      ∃ m2 ∈ guild, m2.hasHierarch = true ∧ e.userId = m2.userId := by
    intro e he
    have he2 : e ∈ (coreB g ts true "Not in top 30" guild
        ((filterEligibleUsers guild ms).take TOP_COUNT)
        (getActiveSpecialRoles guild ms) s0).graceUsers := he
    unfold coreB at he2
    rcases (bfold_sources _ _).2.1 e he2 with h3 | h3
    · simp at h3
    · rw [List.mem_map] at h3
      obtain ⟨m2, hm2, hid⟩ := h3
      have hmf := List.mem_filter.mp hm2
      exact ⟨m2, hmf.1, hmf.2, hid.symm⟩
  have hsksrc : ∀ e ∈ (manageRolesCore g ts true "Not in top 30" guild
      ((filterEligibleUsers guild ms).take TOP_COUNT)
      (getActiveSpecialRoles guild ms) s0).protectedSkipped,
      ∃ m2 ∈ guild, m2.hasHierarch = true ∧ e.userId = m2.userId := by
    intro e he
    have he2 : e ∈ (coreB g ts true "Not in top 30" guild
        ((filterEligibleUsers guild ms).take TOP_COUNT)
        (getActiveSpecialRoles guild ms) s0).skipped := he
    unfold coreB at he2
    rcases (bfold_sources _ _).2.2 e he2 with h3 | h3
    · simp at h3
    · rw [List.mem_map] at h3
      obtain ⟨m2, hm2, hid⟩ := h3
      have hmf := List.mem_filter.mp hm2
      exact ⟨m2, hmf.1, hmf.2, hid.symm⟩
  have hcount : ∀ id, countFor id (coreB g ts true "Not in top 30" guild
      ((filterEligibleUsers guild ms).take TOP_COUNT)
      (getActiveSpecialRoles guild ms) s0) ≤ 1 := by
    intro id
    have h4 := bfold_count g ts true "Not in top 30"
      (activeIdsOf ((filterEligibleUsers guild ms).take TOP_COUNT)
        (getActiveSpecialRoles guild ms)) id
      (guild.filter (fun m => m.hasHierarch))
      ⟨preStore ((filterEligibleUsers guild ms).take TOP_COUNT)
        (getActiveSpecialRoles guild ms) s0, [], [], []⟩
      (nodup_holders hnd)
    have h0 : countFor id
        (⟨preStore ((filterEligibleUsers guild ms).take TOP_COUNT)
          (getActiveSpecialRoles guild ms) s0, [], [], []⟩ : BState) = 0 := by
      simp [countFor, entriesR, entriesG, entriesS]
    unfold coreB
    refine le_trans h4 ?_
    rw [h0]
    split <;> simp
  refine ⟨?_, ?_, ?_, ?_, ?_, ?_⟩
  · intro e1 h1 e2 h2 heq
    exact added_id_not_holder hnd
      (by obtain ⟨v, hv, hvid, hvr⟩ := haddsrc e1 h1; exact ⟨v, hv, hvid, hvr⟩)
      (by obtain ⟨m2, hm2, hmr, hmid⟩ := hremsrc e2 h2
          exact ⟨m2, hm2, hmr, heq.trans hmid⟩)
  · intro e1 h1 e2 h2 heq
    exact added_id_not_holder hnd
      (by obtain ⟨v, hv, hvid, hvr⟩ := haddsrc e1 h1; exact ⟨v, hv, hvid, hvr⟩)
      (by obtain ⟨m2, hm2, hmr, hmid⟩ := hgrsrc e2 h2
          exact ⟨m2, hm2, hmr, heq.trans hmid⟩)
  · intro e1 h1 e2 h2 heq
    exact added_id_not_holder hnd
      (by obtain ⟨v, hv, hvid, hvr⟩ := haddsrc e1 h1; exact ⟨v, hv, hvid, hvr⟩)
      (by obtain ⟨m2, hm2, hmr, hmid⟩ := hsksrc e2 h2
          exact ⟨m2, hm2, hmr, heq.trans hmid⟩)
  · intro e1 h1 e2 h2 heq
    have hb := countFor_two_RG e1.userId
      (coreB g ts true "Not in top 30" guild
        ((filterEligibleUsers guild ms).take TOP_COUNT)
        (getActiveSpecialRoles guild ms) s0) h1 rfl h2 heq.symm
    have := hcount e1.userId
    omega
  · intro e1 h1 e2 h2 heq
    have hb := countFor_two_RS e1.userId
      (coreB g ts true "Not in top 30" guild
        ((filterEligibleUsers guild ms).take TOP_COUNT)
        (getActiveSpecialRoles guild ms) s0) h1 rfl h2 heq.symm
    have := hcount e1.userId
    omega
  · intro e1 h1 e2 h2 heq
    have hb := countFor_two_GS e1.userId
      (coreB g ts true "Not in top 30" guild
        ((filterEligibleUsers guild ms).take TOP_COUNT)
        (getActiveSpecialRoles guild ms) s0) h1 rfl h2 heq.symm
    have := hcount e1.userId
    omega

/-- Decision record of the C7 witness scenario: one user to add, one grace
start, one protected skip. -/
def w7core : RunOut :=
  manageRolesCore RM_GRACE_PERIOD_WEEKS "t" true "Not in top 30"
    [mBob, mAlice, mDave]
    ((filterEligibleUsers [mBob, mAlice, mDave] [(2, 5)]).take TOP_COUNT)
    (getActiveSpecialRoles [mBob, mAlice, mDave] [(2, 5)]) []

/-- C7, witness at a concrete input populating three of the four lists. -/
theorem claim7_witness :
    (∀ e1 ∈ w7core.rolesAdded, ∀ e2 ∈ w7core.rolesRemoved, e1.userId ≠ e2.userId) ∧
    (∀ e1 ∈ w7core.rolesAdded, ∀ e2 ∈ w7core.graceUsers, e1.userId ≠ e2.userId) ∧
    (∀ e1 ∈ w7core.rolesAdded, ∀ e2 ∈ w7core.protectedSkipped, e1.userId ≠ e2.userId) ∧
    (∀ e1 ∈ w7core.rolesRemoved, ∀ e2 ∈ w7core.graceUsers, e1.userId ≠ e2.userId) ∧
    (∀ e1 ∈ w7core.rolesRemoved, ∀ e2 ∈ w7core.protectedSkipped, e1.userId ≠ e2.userId) ∧
    (∀ e1 ∈ w7core.graceUsers, ∀ e2 ∈ w7core.protectedSkipped, e1.userId ≠ e2.userId) :=
  claim7_lists_disjoint RM_GRACE_PERIOD_WEEKS "t" [mBob, mAlice, mDave]
    [(2, 5)] [] w7core (by decide) rfl

end RoleManage
